import Mathlib

/-!
Shallow embedding of `src/app.py` (log-data-prototype).

The program is a single-file Flask application that ingests an uploaded log
artifact (txt/log/json/xml/csv), parses it into a raw table, folds
unrecognized columns into a JSON-encoded `metadata` column, reindexes to a
fixed canonical schema, and serializes the result to CSV.  This file embeds
the data model (pandas DataFrames reduced to column list + cell rows), the
parsing and normalisation steps, the pattern-inference retry loop, and the
upload pipeline, and proves theorems settling the specification claims.

External collaborators (the compiled regex of the inference service, the XML
library) are passed in as function parameters; library calls
(`pandas.read_json`, `pandas.read_csv`, `DataFrame.to_csv`,
`Series.to_json`) are modelled at the string level on the fragment the
pipeline exercises, as documented on each definition.
-/

/-- A table cell: `none` models pandas missing values (NaN / JSON null /
Python `None`). -/
abbrev Cell := Option String

/-- A raw parsed record: field name to value, as produced by the structural
parsers (a Python dict from str to str-or-None). -/
abbrev RawRec := List (String × Cell)

/-- A pandas DataFrame, reduced to what the pipeline uses: an ordered column
list and rows of cells aligned positionally with the columns. -/
structure DataFrame where
  cols : List String
  rows : List (List Cell)
deriving Repr, DecidableEq

/-- Well-formedness: each row has one cell per column. -/
def DataFrame.wf (df : DataFrame) : Prop :=
  ∀ r ∈ df.rows, r.length = df.cols.length

/-- `GENERIC_SCHEMA` from app.py line 28: the canonical, final schema. -/
def GENERIC_SCHEMA : List String :=
  ["timestamp", "log_level", "message", "service_name",
   "host_name", "trace_id", "error_details", "metadata"]

/-- `ALLOWED_EXTENSIONS` from app.py line 25. -/
def ALLOWED_EXTENSIONS : List String := ["txt", "log", "json", "xml", "csv"]

/-! ### Python string helpers -/

/-- Python whitespace characters stripped by `str.strip()` (ASCII fragment). -/
def isPySpace (c : Char) : Bool :=
  c = ' ' || c = '\t' || c = '\n' || c = '\r' || c = '\x0b' || c = '\x0c'

/-- Python `str.strip()` on the ASCII whitespace fragment. -/
def pyStrip (s : String) : String :=
  String.mk (((s.toList.dropWhile isPySpace).reverse.dropWhile isPySpace).reverse)

/-- Python `str.lower()` (ASCII fragment; the extensions compared are ASCII). -/
def lowerPy (s : String) : String :=
  String.mk (s.toList.map Char.toLower)

/-- Worker for `splitlinesPy`. -/
def splitlinesAux : List Char → List Char → List String
  | [], acc => if acc.isEmpty then [] else [String.mk acc.reverse]
  | '\r' :: '\n' :: rest, acc => String.mk acc.reverse :: splitlinesAux rest []
  | '\n' :: rest, acc => String.mk acc.reverse :: splitlinesAux rest []
  | '\r' :: rest, acc => String.mk acc.reverse :: splitlinesAux rest []
  | c :: rest, acc => splitlinesAux rest (c :: acc)

/-- Python `str.splitlines()` on the common line terminators
(`\n`, `\r`, `\r\n`); no trailing empty line is produced. -/
def splitlinesPy (s : String) : List String :=
  splitlinesAux s.toList []

/-- Python `filename.rsplit('.', 1)` as a pair (base, extension): splits at
the last dot; if there is no dot the whole string is the base and the
extension is empty (callers guard with `'.' in filename`). -/
def pyRsplitDot (s : String) : String × String :=
  let rev := s.toList.reverse
  let extRev := rev.takeWhile (fun c => c ≠ '.')
  match rev.drop extRev.length with
  | '.' :: baseRev => (String.mk baseRev.reverse, String.mk extRev.reverse)
  | _ => (s, "")

/-- `allowed_file` from app.py line 41: the extension after the last dot,
lowercased, must be in `ALLOWED_EXTENSIONS`, and the name must contain a
dot. -/
def allowed_file (filename : String) : Bool :=
  filename.toList.contains '.' && ALLOWED_EXTENSIONS.contains (lowerPy (pyRsplitDot filename).2)

/-- werkzeug `secure_filename`, modelled on the fragment the claims use
(names made of letters, digits, dots, underscores and dashes pass through
unchanged; other characters are removed; path separators and spaces are not
exercised by any claim). -/
def secureFilename (s : String) : String :=
  String.mk (s.toList.filter (fun c => c.isAlphanum || c = '.' || c = '_' || c = '-'))

/-- Lowercased, whitespace-stripped form of a token (ASCII fragment). -/
def normTok (s : String) : String :=
  String.mk ((pyStrip s).toList.map Char.toLower)

/-- Over-approximation of the tokens pandas' dtype inference may coerce to a
number or a boolean: the special float/boolean words, and any string over
the numeric character set containing a digit.  A token outside this set is
certainly left as a string by pandas; tokens inside it delimit the modelled
fragment. -/
def coercibleTok (s : String) : Bool :=
  let t := normTok s
  t = "true" || t = "false" ||
  t = "inf" || t = "-inf" || t = "+inf" ||
  t = "infinity" || t = "-infinity" || t = "+infinity" ||
  t = "nan" || t = "-nan" || t = "+nan" ||
  (!(t = "") && t.toList.all (fun c => c.isDigit || c = '+' || c = '-' ||
    c = '.' || c = 'e' || c = '_') && t.toList.any Char.isDigit)

/-- Exact int64 token parse (optional sign, digits, 64-bit signed range), the
integer path of pandas' C tokenizer. -/
def intTokVal (s : String) : Option Int :=
  match s.toList with
  | [] => none
  | c :: rest =>
    let signNeg : Bool := c = '-'
    let digits := if c = '-' || c = '+' then rest else c :: rest
    if !digits.isEmpty && digits.all Char.isDigit then
      let n : Nat := digits.foldl (fun acc d => acc * 10 + (d.toNat - 48)) 0
      if signNeg then
        if n ≤ 9223372036854775808 then some (-(n : Int)) else none
      else
        if n ≤ 9223372036854775807 then some (n : Int) else none
    else none

/-- Suffix test on the character lists (String.endsWith is not
kernel-reducible). -/
def hasSuffix (s t : String) : Bool :=
  s.toList.reverse.take t.toList.length == t.toList.reverse

/-- Initial-segment test on the character lists. -/
def hasStart (s t : String) : Bool :=
  s.toList.take t.toList.length == t.toList

/-- Column names pandas `read_json` treats as date candidates
(keep_default_dates): such a column may be converted to datetime64, which is
outside the string-cell model. -/
def dateCandidateKey (k : String) : Bool :=
  hasSuffix k "_at" || hasSuffix k "_time" || hasStart k "timestamp" ||
  k = "modified" || k = "date" || k = "datetime"

/-! ### DataFrame construction and column operations -/

/-- Key list deduplication keeping first occurrences (Python dict key
ordering when a DataFrame is built from a list of dicts). -/
def dedupAux : List String → List String → List String
  | [], _ => []
  | k :: rest, seen =>
    if seen.contains k then dedupAux rest seen else k :: dedupAux rest (k :: seen)

/-- Value of a key in a raw record; a repeated key keeps the last value
(Python dict semantics) and a missing key or a `None` value both become a
missing cell (pandas turns both into NaN). -/
def recGet (r : RawRec) (c : String) : Cell :=
  match (r.filter (fun p => p.1 = c)).getLast? with
  | some p => p.2
  | none => none

/-- `pandas.DataFrame(list_of_records)`: the columns are the union of the
record keys in first-appearance order; cells missing from a record are NaN. -/
def fromRecords (recs : List RawRec) : DataFrame :=
  let cols := dedupAux ((recs.map (fun r => r.map Prod.fst)).flatten) []
  ⟨cols, recs.map (fun r => cols.map (fun c => recGet r c))⟩

/-- Positional cell lookup by column name, as pandas label indexing does on
a row: the first column with the given name selects the cell at its
position; an absent column gives NaN. -/
def DataFrame.getAt (df : DataFrame) (r : List Cell) (c : String) : Cell :=
  match df.cols.findIdx? (fun x => x = c) with
  | some i => r.getD i none
  | none => none

/-- Row cell at a (row index, column name) position of the table. -/
def DataFrame.getCell (df : DataFrame) (i : Nat) (c : String) : Cell :=
  match df.rows.get? i with
  | some r => df.getAt r c
  | none => none

/-- `df[c] = vals` column assignment: replaces the column in place when it
exists, otherwise appends it on the right. -/
def setCol (df : DataFrame) (c : String) (vals : List Cell) : DataFrame :=
  match df.cols.findIdx? (fun x => x = c) with
  | some i => ⟨df.cols, (df.rows.zip vals).map (fun p => p.1.set i p.2)⟩
  | none => ⟨df.cols ++ [c], (df.rows.zip vals).map (fun p => p.1 ++ [p.2])⟩

/-- `df.drop(columns=cs)`. -/
def dropCols (df : DataFrame) (cs : List String) : DataFrame :=
  ⟨df.cols.filter (fun c => !(cs.contains c)),
   df.rows.map (fun r => ((df.cols.zip r).filter (fun p => !(cs.contains p.1))).map Prod.snd)⟩

/-- `df.reindex(columns=cs)`: exactly the requested columns in the requested
order; columns absent from the source become NaN. -/
def reindex (df : DataFrame) (cs : List String) : DataFrame :=
  ⟨cs, df.rows.map (fun r => cs.map (fun c => df.getAt r c))⟩

/-! ### JSON serialisation of folded metadata (`Series.to_json`) -/

/-- Lowercase hex digit. -/
def hexDigit (n : Nat) : Char :=
  if n < 10 then Char.ofNat (48 + n) else Char.ofNat (87 + n)

/-- A `\uXXXX` escape for a BMP code point. -/
def uEscape (n : Nat) : String :=
  String.mk ['\\', 'u', hexDigit (n / 4096 % 16), hexDigit (n / 256 % 16),
             hexDigit (n / 16 % 16), hexDigit (n % 16)]

/-- Character escaping of pandas `to_json` (force_ascii default): quote,
backslash, forward slash and control characters are escaped; non-ASCII BMP
code points become `\uXXXX`. -/
def jsonEscapeChar (c : Char) : String :=
  if c = '"' then "\\\""
  else if c = '\\' then "\\\\"
  else if c = '/' then "\\/"
  else if c = '\n' then "\\n"
  else if c = '\r' then "\\r"
  else if c = '\t' then "\\t"
  else if c = '\x08' then "\\b"
  else if c = '\x0c' then "\\f"
  else if c.toNat < 32 || c.toNat > 126 then uEscape c.toNat
  else String.singleton c

/-- JSON string literal. -/
def jsonStr (s : String) : String :=
  "\"" ++ String.join (s.toList.map jsonEscapeChar) ++ "\""

/-- `row.to_json()` on a pandas Series restricted to the given (name, cell)
pairs: a JSON object in pair order, NaN serialised as null. -/
def rowToJson (pairs : List (String × Cell)) : String :=
  "\x7b" ++ String.intercalate ","
    (pairs.map (fun p => jsonStr p.1 ++ ":" ++ (match p.2 with
      | some v => jsonStr v
      | none => "null"))) ++ "\x7d"

/-! ### The Schema Normalizer (app.py lines 193-201) -/

/-- `metadata_cols` from app.py line 193: the table columns not in
`GENERIC_SCHEMA`, in column order. -/
def metadataCols (df : DataFrame) : List String :=
  df.cols.filter (fun c => !(GENERIC_SCHEMA.contains c))

/-- app.py lines 195-199: when unrecognized columns exist, every record's
`metadata` cell becomes the JSON serialisation of that record's cells at the
unrecognized columns, and those columns are dropped. -/
def foldMetadata (df : DataFrame) : DataFrame :=
  let mcols := metadataCols df
  if mcols.isEmpty then df
  else
    let vals := df.rows.map (fun r => some (rowToJson (mcols.map (fun c => (c, df.getAt r c)))))
    dropCols (setCol df "metadata" vals) mcols

/-- The Schema Normalizer: fold unrecognized columns into `metadata`, then
reindex to the canonical schema (app.py lines 193-201).  Named under the
`DataFrame` namespace because `normalize` is taken by Mathlib. -/
def DataFrame.normalize (df : DataFrame) : DataFrame :=
  reindex (foldMetadata df) GENERIC_SCHEMA

/-! ### The delimited-text (txt/log) path (app.py lines 147-176) -/

/-- Outcome of the pattern-inference client as observed by `upload_file`:
either the call raised (exhausted retries or a fatal status, app.py line
107/109) or it returned a response whose extracted text may be missing. -/
inductive InferResult where
  | raised (msg : String)
  | returned (text : Option String)

/-- A pipeline failure: a direct flash message, or a caught exception whose
message is shown as `An error occurred: ...` (app.py line 218). -/
inductive PipeErr where
  | flash (msg : String)
  | exn (msg : String)
deriving Repr, DecidableEq

/-- `log_sample` from app.py line 148: the first 10 lines re-joined. -/
def logSample (content : String) : String :=
  String.intercalate "\n" ((splitlinesPy content).take 10)

/-- app.py lines 147-176.  `matchFn` is the semantics of
`re.compile(regex_pattern.strip()).match` applied to a stripped line,
returning `groupdict()` on a match (the compiled pattern is an external
collaborator; compilation is assumed to succeed, the claims exercise the
raise, missing-pattern and zero-match cases).  The second component of the
result records whether the raw-line fallback fired (its flash warning). -/
def processTxt (content : String) (infer : InferResult)
    (matchFn : String → Option RawRec) : Except PipeErr (DataFrame × Bool) :=
  if logSample content = "" then .error (.flash "File is empty.")
  else match infer with
  | .raised m => .error (.exn m)
  | .returned t =>
    if t.getD "" = "" then .error (.exn "LLM did not return a regex pattern.")
    else
      let parsedData := (splitlinesPy content).filterMap (fun line => matchFn (pyStrip line))
      let df := fromRecords parsedData
      if df.rows.isEmpty then
        .ok (fromRecords ((splitlinesPy content).map (fun line => [("message", some line)])), true)
      else .ok (df, false)

/-! ### JSON parsing model (`pandas.read_json`, app.py line 179) -/

/-- A JSON value; numbers keep their raw text (no claim depends on numeric
semantics). -/
inductive JVal where
  | null
  | bool (b : Bool)
  | num (raw : String)
  | str (s : String)
  | arr (elems : List JVal)
  | obj (fields : List (String × JVal))

/-- JSON whitespace skipping. -/
def skipWs (cs : List Char) : List Char :=
  cs.dropWhile (fun c => c = ' ' || c = '\t' || c = '\n' || c = '\r')

/-- Hex digit test (Char.isHexDigit is absent from this toolchain). -/
def isHexDigitPy (c : Char) : Bool :=
  c.isDigit || ('a' ≤ c && c ≤ 'f') || ('A' ≤ c && c ≤ 'F')

/-- JSON string body after the opening quote, handling the standard escape
sequences. -/
def parseJStringAux : List Char → List Char → Except String (String × List Char)
  | [], _ => .error "Unterminated string"
  | '"' :: rest, acc => .ok (String.mk acc.reverse, rest)
  | '\\' :: 'n' :: rest, acc => parseJStringAux rest ('\n' :: acc)
  | '\\' :: 't' :: rest, acc => parseJStringAux rest ('\t' :: acc)
  | '\\' :: 'r' :: rest, acc => parseJStringAux rest ('\r' :: acc)
  | '\\' :: 'b' :: rest, acc => parseJStringAux rest ('\x08' :: acc)
  | '\\' :: 'f' :: rest, acc => parseJStringAux rest ('\x0c' :: acc)
  | '\\' :: '/' :: rest, acc => parseJStringAux rest ('/' :: acc)
  | '\\' :: '\\' :: rest, acc => parseJStringAux rest ('\\' :: acc)
  | '\\' :: '"' :: rest, acc => parseJStringAux rest ('"' :: acc)
  | '\\' :: 'u' :: a :: b :: c :: d :: rest, acc =>
    match isHexDigitPy a && isHexDigitPy b && isHexDigitPy c && isHexDigitPy d with
    | true =>
      let h := fun (x : Char) =>
        if x.isDigit then x.toNat - 48
        else if x.toNat ≥ 97 then x.toNat - 87 else x.toNat - 55
      parseJStringAux rest (Char.ofNat (h a * 4096 + h b * 256 + h c * 16 + h d) :: acc)
    | false => .error "Bad unicode escape"
  | '\\' :: _, _ => .error "Bad escape"
  | c :: rest, acc => parseJStringAux rest (c :: acc)

/-- Characters a JSON number token may contain. -/
def isNumChar (c : Char) : Bool :=
  c.isDigit || c = '-' || c = '+' || c = '.' || c = 'e' || c = 'E'

mutual

/-- Recursive-descent JSON value parser (fuel-bounded; fuel exceeding the
input length never runs out). -/
def parseJVal : Nat → List Char → Except String (JVal × List Char)
  | 0, _ => .error "Out of fuel"
  | fuel + 1, cs =>
    match skipWs cs with
    | 'n' :: 'u' :: 'l' :: 'l' :: rest => .ok (.null, rest)
    | 't' :: 'r' :: 'u' :: 'e' :: rest => .ok (.bool true, rest)
    | 'f' :: 'a' :: 'l' :: 's' :: 'e' :: rest => .ok (.bool false, rest)
    | '"' :: rest => (parseJStringAux rest []).map (fun p => (.str p.1, p.2))
    | '[' :: rest => parseJArrLoop fuel rest []
    | c :: rest =>
      if c = Char.ofNat 123 then parseJObjLoop fuel rest []
      else if c.isDigit || c = '-' then
        let tok := (c :: rest).takeWhile isNumChar
        .ok (.num (String.mk tok), (c :: rest).drop tok.length)
      else .error "Expected a JSON value"
    | [] => .error "Expected a JSON value"

/-- Array elements after the opening bracket. -/
def parseJArrLoop : Nat → List Char → List JVal → Except String (JVal × List Char)
  | 0, _, _ => .error "Out of fuel"
  | fuel + 1, cs, acc =>
    match skipWs cs with
    | ']' :: rest => .ok (.arr acc.reverse, rest)
    | cs' =>
      match parseJVal fuel cs' with
      | .error e => .error e
      | .ok (v, rest) =>
        match skipWs rest with
        | ',' :: rest' => parseJArrLoop fuel rest' (v :: acc)
        | ']' :: rest' => .ok (.arr (v :: acc).reverse, rest')
        | _ => .error "Expected comma or close bracket"

/-- Object members after the opening brace. -/
def parseJObjLoop : Nat → List Char → List (String × JVal) →
    Except String (JVal × List Char)
  | 0, _, _ => .error "Out of fuel"
  | fuel + 1, cs, acc =>
    match skipWs cs with
    | c :: rest =>
      if c = Char.ofNat 125 then .ok (.obj acc.reverse, rest)
      else if c = '"' then
        match parseJStringAux rest [] with
        | .error e => .error e
        | .ok (k, rest') =>
          match skipWs rest' with
          | ':' :: rest'' =>
            match parseJVal fuel rest'' with
            | .error e => .error e
            | .ok (v, rest''') =>
              match skipWs rest''' with
              | ',' :: r => parseJObjLoop fuel r ((k, v) :: acc)
              | c' :: r =>
                if c' = Char.ofNat 125 then .ok (.obj ((k, v) :: acc).reverse, r)
                else .error "Expected comma or close brace"
              | [] => .error "Expected comma or close brace"
          | _ => .error "Expected colon"
      else .error "Expected a key"
    | [] => .error "Expected a key or close brace"

end

/-- Parse a whole string as exactly one JSON document; leftover non-space
characters are an error, as in the ujson backend of `pandas.read_json`
("Trailing data"). -/
def parseJsonDoc (s : String) : Except String JVal :=
  match parseJVal (s.length + 1) s.toList with
  | .error e => .error e
  | .ok (v, rest) =>
    if (skipWs rest).isEmpty then .ok v else .error "Trailing data"

/-- Leaf conversion of `pandas.read_json` on the fragment the pipeline
exercises: null becomes a missing cell and a string value that does not look
numeric is kept verbatim (pandas leaves such object columns untouched).  A
numeric-looking string may be coerced to a float64/int64 column by pandas'
default dtype inference, and other value kinds (numbers, booleans, nested
containers) produce non-string cells; both are outside the string-cell
model and are refused rather than approximated.  No theorem relies on the
refused cases. -/
def jvalToCell : JVal → Except String Cell
  | .null => .ok none
  | .str s =>
    if coercibleTok s then
      .error "numeric-looking string value outside the modelled fragment"
    else .ok (some s)
  | _ => .error "value kind outside the modelled fragment"

/-- `pandas.read_json` (app.py line 179), modelled on the fragment the
claims exercise: the content must parse as a single JSON document (a parse
failure, including trailing data after a first document, raises); a JSON
array of flat objects with string/null values becomes one record per
object.  There is no retry of any other form. -/
def readJson (content : String) : Except String DataFrame :=
  match parseJsonDoc content with
  | .error e => .error e
  | .ok (.arr elems) =>
    match elems.mapM (fun e =>
      match e with
      | .obj kvs => kvs.mapM (fun (p : String × JVal) =>
          if dateCandidateKey p.1 then
            (Except.error "date-candidate column name outside the modelled fragment" :
              Except String (String × Cell))
          else (jvalToCell p.2).map (fun c => (p.1, c)))
      | _ => .error "array element is not an object: outside the modelled fragment") with
    | .error e => .error e
    | .ok recs => .ok (fromRecords recs)
  | .ok _ => .error "top-level JSON shape outside the modelled fragment"

/-- Modelled from the spec: leaf conversion of the spec's JSON record
parser (string and null values; the spec says nothing of numeric
coercion). -/
def specJvalToCell : JVal → Except String Cell
  | .null => .ok none
  | .str s => .ok (some s)
  | _ => .error "value kind not described by the spec fragment"

/-- Modelled from the spec: the newline-delimited JSON form the spec says
the JSON parser retries ("one object per line", section 4.2); the code has
no such retry, so this definition follows the spec's words and is used only
to witness that the retry form would have parsed. -/
def specNdjsonParse (content : String) : Except String (List RawRec) :=
  ((splitlinesPy content).filter (fun l => l ≠ "")).mapM (fun line =>
    match parseJsonDoc line with
    | .ok (.obj kvs) => kvs.mapM (fun (p : String × JVal) => (specJvalToCell p.2).map (fun c => (p.1, c)))
    | .ok _ => .error "line is not a JSON object"
    | .error e => .error e)

/-! ### CSV serialisation model (`DataFrame.to_csv`, app.py line 203) -/

/-- A field needs quoting when it contains the delimiter, the quote
character or a line terminator (csv.QUOTE_MINIMAL, the `to_csv` default). -/
def needsQuote (s : String) : Bool :=
  s.toList.any (fun c => c = ',' || c = '"' || c = '\n' || c = '\r')

/-- Double every quote character (csv quoting). -/
def escQuotes : List Char → List Char
  | [] => []
  | c :: r => if c = '"' then '"' :: '"' :: escQuotes r else c :: escQuotes r

/-- One encoded CSV field. -/
def fieldChars (s : String) : List Char :=
  if needsQuote s then '"' :: (escQuotes s.toList ++ ['"']) else s.toList

/-- The string a cell shows as in CSV (`to_csv` writes NaN as empty). -/
def cellStr : Cell → String
  | none => ""
  | some s => s

/-- Comma-join encoded fields. -/
def rowChars : List (List Char) → List Char
  | [] => []
  | [f] => f
  | f :: f' :: fs => f ++ ',' :: rowChars (f' :: fs)

/-- Rows each terminated by a newline, as `to_csv` emits. -/
def encRows (rs : List (List (List Char))) : List Char :=
  (rs.map (fun r => rowChars r ++ ['\n'])).flatten

/-- `df.to_csv(index=False)`: a header row in column order followed by the
data rows, minimal quoting, newline terminated. -/
def toCsv (df : DataFrame) : String :=
  String.mk (encRows ((df.cols.map fieldChars) ::
    df.rows.map (fun r => r.map (fun cell => fieldChars (cellStr cell)))))

/-- Quoted-field body following the opening quote; a doubled quote is a
literal quote, the closing quote ends the field. -/
def parseQuoted : List Char → List Char → String × List Char
  | [], acc => (String.mk acc.reverse, [])
  | c :: rest, acc =>
    if c = '"' then
      match rest with
      | c' :: rest' =>
        if c' = '"' then parseQuoted rest' ('"' :: acc)
        else (String.mk acc.reverse, c' :: rest')
      | [] => (String.mk acc.reverse, [])
    else parseQuoted rest (c :: acc)

/-- Unquoted field: runs to the next delimiter, line terminator or end. -/
def parseUnquoted : List Char → List Char → String × List Char
  | [], acc => (String.mk acc.reverse, [])
  | c :: rest, acc =>
    if c = ',' || c = '\n' || c = '\r' then (String.mk acc.reverse, c :: rest)
    else parseUnquoted rest (c :: acc)

/-- One CSV field: a leading quote opens a quoted field. -/
def parseField : List Char → String × List Char
  | [] => ("", [])
  | c :: rest =>
    if c = '"' then parseQuoted rest [] else parseUnquoted (c :: rest) []

/-- One CSV record up to and including its line terminator; the fuel bounds
the number of fields (one delimiter is consumed per recursion, so any fuel
above the input length suffices). -/
def parseRowF : Nat → List Char → List String × List Char
  | 0, cs => ([], cs)
  | fuel + 1, cs =>
    let p := parseField cs
    match p.2 with
    | ',' :: rest' =>
      let q := parseRowF fuel rest'
      (p.1 :: q.1, q.2)
    | '\r' :: '\n' :: rest' => ([p.1], rest')
    | '\n' :: rest' => ([p.1], rest')
    | '\r' :: rest' => ([p.1], rest')
    | _ => ([p.1], p.2)

/-- All CSV records; blank lines are skipped (`skip_blank_lines` default of
`pandas.read_csv`).  The fuel bounds the number of records. -/
def parseRowsF : Nat → List Char → List (List String)
  | 0, _ => []
  | _ + 1, [] => []
  | fuel + 1, cs =>
    let p := parseRowF (cs.length + 1) cs
    if p.1 = [""] then parseRowsF fuel p.2
    else p.1 :: parseRowsF fuel p.2

/-- Tokenised CSV records of a string. -/
def parseCsvRows (s : String) : List (List String) :=
  parseRowsF (s.length + 1) s.toList

/-- The default `na_values` sentinel strings of `pandas.read_csv`: a field
equal to one of these reads back as NaN. -/
def NA_VALUES : List String :=
  ["", "#N/A", "#N/A N/A", "#NA", "-1.#IND", "-1.#QNAN", "-NaN", "-nan",
   "1.#IND", "1.#QNAN", "<NA>", "N/A", "NA", "NULL", "NaN", "None",
   "n/a", "nan", "null"]

/-- A cell as `pandas.read_csv` produces it on the modelled fragment:
missing (NaN), a string of an object column, or an int64 of a cleanly
integral column.  Columns pandas would coerce to float64 or boolean carry
values with no exact counterpart in this embedding and are refused by
`read_csv_typed` rather than approximated. -/
inductive PdCell where
  | na
  | str (s : String)
  | int (n : Int)
deriving Repr, DecidableEq

/-- The field list of column `j` (short rows padded with the empty field,
which is an NA sentinel, matching pandas' NaN fill). -/
def columnFields (dataRows : List (List String)) (j : Nat) : List String :=
  dataRows.map (fun r => r.getD j "")

/-- Dtype decision of pandas' C parser for one column, on the modelled
fragment. -/
inductive ColKind where
  | strCol
  | intCol
  | outside
deriving Repr, DecidableEq

/-- Column dtype inference of `pandas.read_csv` (default options): NA
sentinels are masked first; a column whose remaining tokens all look
coercible becomes numeric or boolean — exactly representable here only when
there is no NA and every token is a clean int64 (`intCol`), otherwise the
column is outside the modelled fragment; a column with any non-coercible
token stays an object column of strings (`strCol`). -/
def colKind (fields : List String) : ColKind :=
  let toks := fields.filter (fun f => !(NA_VALUES.contains f))
  if toks.isEmpty then .strCol
  else if toks.all coercibleTok then
    if (fields.all (fun f => !(NA_VALUES.contains f))) &&
        toks.all (fun f => (intTokVal f).isSome) then .intCol
    else .outside
  else .strCol

/-- One field as a cell, given its column's inferred kind. -/
def mkPdCell (kind : ColKind) (f : String) : PdCell :=
  if NA_VALUES.contains f then .na
  else match kind with
  | .intCol =>
    match intTokVal f with
    | some n => .int n
    | none => .str f
  | _ => .str f

/-- `pandas.read_csv` (app.py line 187) with its default dtype inference,
modelled on the fragment the claims exercise: first record is the header
(kept verbatim), NA sentinel fields become NaN, columns of clean int64
tokens become integer columns, and columns that would coerce to float64 or
boolean are refused as outside the model.  Ragged-row handling beyond
NA-padding of short rows is outside the model; no theorem relies on it. -/
def read_csv_typed (s : String) : Except String (List String × List (List PdCell)) :=
  match parseCsvRows s with
  | [] => .error "No columns to parse from file"
  | header :: dataRows =>
    let kinds := (List.range header.length).map (fun j => colKind (columnFields dataRows j))
    if kinds.contains ColKind.outside then
      .error "column dtype outside the modelled fragment (float or boolean coercion)"
    else
      .ok (header, dataRows.map (fun r =>
        (List.range header.length).map (fun j => mkPdCell (kinds.getD j .strCol) (r.getD j ""))))

/-- A parsed cell back in the string-cell world; integer columns have no
string counterpart and are refused. -/
def pdToCell : PdCell → Except String Cell
  | .na => .ok none
  | .str s => .ok (some s)
  | .int _ => .error "integer column outside the string-cell model"

/-- The upload path's view of `pandas.read_csv`: the typed parse restricted
to tables whose columns all stay string/NA valued. -/
def read_csv (s : String) : Except String DataFrame :=
  match read_csv_typed s with
  | .error e => .error e
  | .ok (header, rows) =>
    match rows.mapM (fun r => r.mapM pdToCell) with
    | .error e => .error e
    | .ok rows2 => .ok ⟨header, rows2⟩

/-! ### The pattern-inference retry loop (app.py lines 94-109) -/

/-- One attempt of `requests.post` + `raise_for_status`, as seen by the
retry loop: a successful response carrying the extracted candidate text, an
HTTP error status (the raised exception carries the response), or a network
failure with no response (`e.response is None`). -/
inductive AttemptResult where
  | ok (text : Option String)
  | httpErr (status : Nat)
  | netErr (msg : String)

deriving instance DecidableEq for Except

/-- Observable outcome of `get_regex_from_gemini`: the returned candidate
text or the raised message, the sleeps performed (seconds), and the number
of attempts made. -/
structure CallTrace where
  result : Except String (Option String)
  sleeps : List Nat
  attempts : Nat
deriving Repr, DecidableEq

/-- The loop body of app.py lines 96-107: attempt `i`, retrying only when
the raised exception has a response with status 503 or 429 and `i` is not
the last allowed attempt; the backoff doubles after each sleep. -/
def geminiLoop (oracle : Nat → AttemptResult) :
    Nat → Nat → Nat → List Nat → CallTrace
  | 0, i, _, sleeps =>
    ⟨.error "Failed to get a response from the API after several retries.", sleeps.reverse, i⟩
  | fuel + 1, i, backoff, sleeps =>
    match oracle i with
    | .ok text => ⟨.ok text, sleeps.reverse, i + 1⟩
    | .httpErr s =>
      if (s = 503 || s = 429) && i < 2 then
        geminiLoop oracle fuel (i + 1) (backoff * 2) (backoff :: sleeps)
      else ⟨.error ("HTTP error " ++ toString s), sleeps.reverse, i + 1⟩
    | .netErr m => ⟨.error m, sleeps.reverse, i + 1⟩

/-- `get_regex_from_gemini` (app.py lines 94-109): 3 attempts, backoff
starting at 2 seconds. -/
def geminiCall (oracle : Nat → AttemptResult) : CallTrace :=
  geminiLoop oracle 3 0 2 []

/-! ### The upload pipeline (app.py lines 118-223) -/

/-- Observable outcome of `upload_file`: the rendered results (the
normalised table, the download filename and whether the fallback warning was
flashed), or a redirect to the index page with a flash message. -/
inductive Outcome where
  | ok (table : DataFrame) (csvFilename : String) (warning : Bool)
  | err (msg : String)
deriving Repr, DecidableEq

/-- `upload_file` (app.py lines 118-223) for a present file part.  External
collaborators are parameters: `infer` is the observable outcome of the
pattern-inference call, `matchFn` the semantics of the compiled pattern, and
`xmlParse` the record extraction of `xml.etree.ElementTree` (no claim
exercises the XML branch).  Any exception raised in the pipeline is caught
at the boundary and flashed as `An error occurred: ...`. -/
def processUpload (filename content : String) (infer : InferResult)
    (matchFn : String → Option RawRec)
    (xmlParse : String → Except String (List RawRec)) : Outcome :=
  if filename = "" then .err "No selected file"
  else if allowed_file filename then
    let fn := secureFilename filename
    if content = "" then .err "The uploaded file appears to be empty."
    else
      let ext := lowerPy (pyRsplitDot fn).2
      let parsed : Except PipeErr (Option (DataFrame × Bool)) :=
        if ext = "log" || ext = "txt" then
          (processTxt content infer matchFn).map (fun p => some p)
        else if ext = "json" then
          match readJson content with
          | .ok df => .ok (some (df, false))
          | .error e => .error (.exn e)
        else if ext = "xml" then
          match xmlParse content with
          | .ok recs => .ok (some (fromRecords recs, false))
          | .error e => .error (.exn e)
        else if ext = "csv" then
          match read_csv content with
          | .ok df => .ok (some (df, false))
          | .error e => .error (.exn e)
        else .ok none
      match parsed with
      | .error (.flash m) => .err m
      | .error (.exn m) => .err ("An error occurred: " ++ m)
      | .ok none => .err "Parsing failed. The application could not structure the data."
      | .ok (some (df, warn)) =>
        if df.rows.isEmpty then
          .err "Parsing failed. The application could not structure the data."
        else
          .ok df.normalize ((pyRsplitDot fn).1 ++ "_processed.csv") warn
  else .err "File type not allowed."

/-! ### Structural lemmas about the Schema Normalizer -/

theorem foldMetadata_rows_length (df : DataFrame) :
    (foldMetadata df).rows.length = df.rows.length := by
  simp only [foldMetadata]
  split
  · rfl
  · simp only [dropCols, setCol]
    split <;> simp

theorem normalize_rows_length (df : DataFrame) :
    df.normalize.rows.length = df.rows.length := by
  unfold DataFrame.normalize reindex
  simpa using foldMetadata_rows_length df

theorem normalize_cols (df : DataFrame) : df.normalize.cols = GENERIC_SCHEMA := rfl

theorem normalize_row_length (df : DataFrame) :
    ∀ r ∈ df.normalize.rows, r.length = GENERIC_SCHEMA.length := by
  intro r hr
  unfold DataFrame.normalize reindex at hr
  simp only [List.mem_map] at hr
  obtain ⟨r', -, rfl⟩ := hr
  simp

/-- C1: for every upload the pipeline accepts (any format path), the table
produced by the Schema Normalizer has exactly the CanonicalSchema columns in
order, every record has exactly one cell per canonical column (no other
fields), and the table is non-empty. -/
theorem C1_output_schema_canonical (filename content : String) (infer : InferResult)
    (matchFn : String → Option RawRec) (xmlParse : String → Except String (List RawRec))
    (table : DataFrame) (fn : String) (warn : Bool)
    (h : processUpload filename content infer matchFn xmlParse = .ok table fn warn) :
    table.cols = GENERIC_SCHEMA ∧ (∀ r ∈ table.rows, r.length = GENERIC_SCHEMA.length) ∧
      table.rows ≠ [] := by
  simp only [processUpload] at h
  split at h
  · simp at h
  · split at h
    · split at h
      · simp at h
      · split at h
        · simp at h
        · simp at h
        · simp at h
        · rename_i df warn' heq
          split at h
          · simp at h
          · rename_i hne
            simp only [Outcome.ok.injEq] at h
            obtain ⟨h1, h2, h3⟩ := h
            subst h1
            refine ⟨normalize_cols df, normalize_row_length df, ?_⟩
            intro hnil
            have hlen := normalize_rows_length df
            rw [hnil] at hlen
            have : df.rows = [] := List.eq_nil_of_length_eq_zero hlen.symm
            exact hne (by simp [this])
    · simp at h

/-- C1 witness: a concrete accepted JSON upload, with the theorem's
hypothesis discharged by evaluation. -/
theorem C1_output_schema_canonical_witness :
    (DataFrame.mk GENERIC_SCHEMA
      [[none, none, none, none, none, none, none, some "\x7b\"a\":\"x\"\x7d"]]).cols = GENERIC_SCHEMA ∧
    (∀ r ∈ (DataFrame.mk GENERIC_SCHEMA
      [[none, none, none, none, none, none, none, some "\x7b\"a\":\"x\"\x7d"]]).rows,
        r.length = GENERIC_SCHEMA.length) ∧
    (DataFrame.mk GENERIC_SCHEMA
      [[none, none, none, none, none, none, none, some "\x7b\"a\":\"x\"\x7d"]]).rows ≠ [] :=
  C1_output_schema_canonical "data.json" "[\x7b\"a\":\"x\"\x7d]" (.returned none)
    (fun _ => none) (fun _ => .error "unused")
    (DataFrame.mk GENERIC_SCHEMA
      [[none, none, none, none, none, none, none, some "\x7b\"a\":\"x\"\x7d"]])
    "data_processed.csv" false (by decide)

/-- Mapping a function that fixes every element of a list is the identity. -/
theorem mapSelfAux {α : Type} (l : List α) (f : α → α) (h : ∀ x ∈ l, f x = x) :
    l.map f = l := by
  induction l with
  | nil => rfl
  | cons x xs ih =>
    simp only [List.map_cons, h x (by simp)]
    rw [ih (fun y hy => h y (by simp [hy]))]

/-- Reindexing a row that already has one cell per canonical column is the
identity on the row. -/
theorem reindex_self_row (rows : List (List Cell)) (r : List Cell) (hr : r.length = 8) :
    (GENERIC_SCHEMA.map fun c => DataFrame.getAt ⟨GENERIC_SCHEMA, rows⟩ r c) = r := by
  match r, hr with
  | [a, b, c, d, e, f, g, h], _ => rfl

/-- C7: the Schema Normalizer is idempotent: on a table whose records
already have exactly the CanonicalSchema field set, folding and reindexing
return the table unchanged. -/
theorem C7_normalizer_idempotent (df : DataFrame) (hwf : df.wf)
    (hc : df.cols = GENERIC_SCHEMA) : df.normalize = df := by
  obtain ⟨cols, rows⟩ := df
  simp only [DataFrame.wf] at hwf
  simp only at hc
  subst hc
  simp only [DataFrame.normalize]
  have hfold : foldMetadata ⟨GENERIC_SCHEMA, rows⟩ = ⟨GENERIC_SCHEMA, rows⟩ := by
    simp only [foldMetadata]
    have hm : metadataCols ⟨GENERIC_SCHEMA, rows⟩ = [] := rfl
    simp [hm]
  rw [hfold]
  simp only [reindex, DataFrame.mk.injEq, true_and]
  apply mapSelfAux
  intro r hrmem
  exact reindex_self_row rows r (by simpa using hwf r hrmem)

/-- C7 witness: a concrete already-canonical table passes through the
normalizer unchanged. -/
theorem C7_normalizer_idempotent_witness :
    (DataFrame.mk GENERIC_SCHEMA
      [[some "2024-01-01", some "INFO", some "hello", none, none, none, none, some "x"]]).normalize =
    DataFrame.mk GENERIC_SCHEMA
      [[some "2024-01-01", some "INFO", some "hello", none, none, none, none, some "x"]] :=
  C7_normalizer_idempotent
    (DataFrame.mk GENERIC_SCHEMA
      [[some "2024-01-01", some "INFO", some "hello", none, none, none, none, some "x"]])
    (by unfold DataFrame.wf; decide) (by decide)

/-! ### Association-list view of row lookups -/

/-- First-match lookup in a (column, cell) list; the association-list view
of positional label indexing. -/
def lookupZ : List (String × Cell) → String → Cell
  | [], _ => none
  | (k, v) :: rest, c => if k = c then v else lookupZ rest c

/-- Label indexing on a well-formed row is association-list lookup on the
column/row zip. -/
theorem getAt_lookupZ (d : DataFrame) (r : List Cell)
    (h : r.length = d.cols.length) (c : String) :
    d.getAt r c = lookupZ (d.cols.zip r) c := by
  obtain ⟨cols, rows⟩ := d
  simp only at h
  induction cols generalizing rows r with
  | nil => simp [DataFrame.getAt, lookupZ, List.findIdx?]
  | cons k ks ih =>
    match r, h with
    | v :: r', h =>
      simp only [DataFrame.getAt, List.findIdx?_cons, List.findIdx?_succ]
      by_cases hk : k = c
      · simp [hk, lookupZ, List.zip_cons_cons]
      · simp only [List.zip_cons_cons, lookupZ, if_neg hk]
        have hih := ih r' rows (by simpa using h)
        simp only [DataFrame.getAt] at hih
        simp only [decide_eq_true_eq, if_neg hk]
        cases hfind : ks.findIdx? (fun x => decide (x = c)) with
        | none =>
          rw [hfind] at hih
          simp only [hfind, Option.map]
          exact hih
        | some j =>
          rw [hfind] at hih
          simp only [hfind, Option.map]
          simpa using hih

/-- Filtering out a set of keys that does not mention the looked-up key
leaves the lookup unchanged. -/
theorem lookupZ_filter_keep (l : List (String × Cell)) (cs : List String) (c : String)
    (hc : c ∉ cs) :
    lookupZ (l.filter (fun p => !(cs.contains p.1))) c = lookupZ l c := by
  induction l with
  | nil => rfl
  | cons p rest ih =>
    obtain ⟨k, v⟩ := p
    by_cases hk : k = c
    · subst hk
      simp [List.filter_cons, hc, lookupZ]
    · by_cases hkeep : k ∈ cs
      · rw [List.filter_cons, if_neg (by simp [hkeep])]
        rw [show lookupZ ((k, v) :: rest) c = lookupZ rest c from by simp [lookupZ, hk]]
        exact ih
      · rw [List.filter_cons, if_pos (by simp [hkeep])]
        rw [show lookupZ ((k, v) :: rest) c = lookupZ rest c from by simp [lookupZ, hk],
            show lookupZ ((k, v) :: List.filter (fun p => !cs.contains p.1) rest) c =
              lookupZ (List.filter (fun p => !cs.contains p.1) rest) c from by
              simp [lookupZ, hk]]
        exact ih

/-- Writing the cell at the first position whose column matches the key
makes the lookup of that key return the written value. -/
theorem lookupZ_set_found (cols : List String) (r : List Cell) (v : Cell) (c : String)
    (i : Nat) (hfind : cols.findIdx? (fun x => decide (x = c)) = some i)
    (hlen : r.length = cols.length) :
    lookupZ (cols.zip (r.set i v)) c = v := by
  induction cols generalizing r i with
  | nil => simp [List.findIdx?] at hfind
  | cons k ks ih =>
    match r, hlen with
    | w :: r', hlen =>
      rw [List.findIdx?_cons] at hfind
      by_cases hk : k = c
      · rw [if_pos (by simp [hk])] at hfind
        injection hfind with hfi
        subst hfi
        simp [lookupZ, hk]
      · rw [if_neg (by simp [hk]), List.findIdx?_succ] at hfind
        cases hfind2 : ks.findIdx? (fun x => decide (x = c)) with
        | none => rw [hfind2] at hfind; simp [Option.map] at hfind
        | some j =>
          rw [hfind2] at hfind
          simp only [Option.map] at hfind
          injection hfind with hfi
          subst hfi
          simp only [List.set, List.zip_cons_cons, lookupZ, if_neg hk]
          exact ih r' j hfind2 (by simpa using hlen)

/-- Writing the cell at the position of one key leaves the lookup of every
other key unchanged. -/
theorem lookupZ_set_other (cols : List String) (r : List Cell) (v : Cell) (c c' : String)
    (i : Nat) (hfind : cols.findIdx? (fun x => decide (x = c)) = some i)
    (hlen : r.length = cols.length) (hne : c' ≠ c) :
    lookupZ (cols.zip (r.set i v)) c' = lookupZ (cols.zip r) c' := by
  induction cols generalizing r i with
  | nil => simp [List.findIdx?] at hfind
  | cons k ks ih =>
    match r, hlen with
    | w :: r', hlen =>
      rw [List.findIdx?_cons] at hfind
      by_cases hk : k = c
      · rw [if_pos (by simp [hk])] at hfind
        injection hfind with hfi
        subst hfi
        have hk' : k ≠ c' := by rw [hk]; exact fun hx => hne hx.symm
        simp [lookupZ, hk']
      · rw [if_neg (by simp [hk]), List.findIdx?_succ] at hfind
        cases hfind2 : ks.findIdx? (fun x => decide (x = c)) with
        | none => rw [hfind2] at hfind; simp [Option.map] at hfind
        | some j =>
          rw [hfind2] at hfind
          simp only [Option.map] at hfind
          injection hfind with hfi
          subst hfi
          by_cases hk' : k = c'
          · simp [List.set, List.zip_cons_cons, lookupZ, hk']
          · simp only [List.set, List.zip_cons_cons, lookupZ, if_neg hk']
            exact ih r' j hfind2 (by simpa using hlen)

/-- Looking up a key appended last, when no earlier entry carries it. -/
theorem lookupZ_append_last (l : List (String × Cell)) (m : String) (v : Cell)
    (hall : ∀ p ∈ l, p.1 ≠ m) :
    lookupZ (l ++ [(m, v)]) m = v := by
  induction l with
  | nil => simp [lookupZ]
  | cons p rest ih =>
    obtain ⟨k, w⟩ := p
    have hk : k ≠ m := hall (k, w) (by simp)
    simp only [List.cons_append, lookupZ, if_neg hk]
    exact ih (fun q hq => hall q (by simp [hq]))

/-- An appended entry for a different key does not affect a lookup. -/
theorem lookupZ_append_other (l : List (String × Cell)) (m : String) (v : Cell)
    (c : String) (hne : c ≠ m) :
    lookupZ (l ++ [(m, v)]) c = lookupZ l c := by
  induction l with
  | nil =>
    simp only [List.nil_append, lookupZ]
    rw [if_neg (fun h => hne h.symm)]
  | cons p rest ih =>
    obtain ⟨k, w⟩ := p
    by_cases hk : k = c
    · simp [lookupZ, hk]
    · simp only [List.cons_append, lookupZ, if_neg hk]
      exact ih

/-- The columns kept by a drop are the keys of the kept zip entries. -/
theorem dropCols_cols_eq (cols : List String) (r : List Cell) (cs : List String)
    (hlen : r.length = cols.length) :
    cols.filter (fun c => !(cs.contains c)) =
      ((cols.zip r).filter (fun p => !(cs.contains p.1))).map Prod.fst := by
  induction cols generalizing r with
  | nil => simp
  | cons k ks ih =>
    match r, hlen with
    | w :: r', hlen =>
      by_cases hk : k ∈ cs
      · rw [List.zip_cons_cons, List.filter_cons, List.filter_cons,
            if_neg (by simp [hk]), if_neg (by simp [hk])]
        exact ih r' (by simpa using hlen)
      · rw [List.zip_cons_cons, List.filter_cons, List.filter_cons,
            if_pos (by simp [hk]), if_pos (by simp [hk])]
        simp only [List.map_cons]
        rw [ih r' (by simpa using hlen)]

/-- The zip of the key and value projections of a pair list is the list. -/
theorem zip_fst_snd (l : List (String × Cell)) :
    (l.map Prod.fst).zip (l.map Prod.snd) = l := by
  induction l with
  | nil => rfl
  | cons p rest ih => simp [ih]

/-- A cell of a reindexed table, read at a canonical column, is the label
lookup in the source row. -/
theorem getCell_reindex (d : DataFrame) (i : Nat) (r' : List Cell) (c : String)
    (hc : c ∈ GENERIC_SCHEMA) (hi : d.rows.get? i = some r') :
    (reindex d GENERIC_SCHEMA).getCell i c = d.getAt r' c := by
  have hrow : (reindex d GENERIC_SCHEMA).rows.get? i =
      some (GENERIC_SCHEMA.map (fun c => d.getAt r' c)) := by
    show (d.rows.map fun r => GENERIC_SCHEMA.map (fun c => d.getAt r c)).get? i = _
    rw [List.get?_map, hi]
    rfl
  simp only [DataFrame.getCell, hrow]
  simp only [GENERIC_SCHEMA, List.mem_cons, List.not_mem_nil, or_false] at hc
  rcases hc with rfl | rfl | rfl | rfl | rfl | rfl | rfl | rfl <;> rfl

/-- Zipping a list with its own map pairs each element with its image. -/
theorem zip_self_map (rows : List (List Cell)) (f : List Cell → Cell) :
    rows.zip (rows.map f) = rows.map (fun r => (r, f r)) := by
  induction rows with
  | nil => rfl
  | cons r rs ih => simp [ih]

/-- Pointwise-equal functions map lists identically. -/
theorem mapCongrAux {α β : Type} (l : List α) (f g : α → β)
    (h : ∀ x ∈ l, f x = g x) : l.map f = l.map g := by
  induction l with
  | nil => rfl
  | cons x xs ih =>
    simp only [List.map_cons, h x (by simp)]
    rw [ih (fun y hy => h y (by simp [hy]))]

/-- Unrecognized columns are exactly the columns outside the canonical
schema. -/
theorem metadataCols_not_schema (cols : List String) (rows : List (List Cell)) :
    ∀ k ∈ metadataCols ⟨cols, rows⟩, k ∉ GENERIC_SCHEMA := by
  intro k hk
  have := List.mem_filter.mp hk
  simpa using this.2

/-- Characterisation of the folding step (app.py lines 193-199) on a table
with at least one unrecognized column: row `i` of the folded table reads, at
each canonical column, the original value, except at `metadata`, which holds
the JSON serialisation of the row's cells at every unrecognized column of
the table. -/
theorem foldMetadata_spec (cols : List String) (rows : List (List Cell))
    (hwf : (DataFrame.mk cols rows).wf) (i : Nat) (r : List Cell)
    (hi : rows.get? i = some r) (hm : metadataCols ⟨cols, rows⟩ ≠ []) :
    ∃ r2 : List Cell,
      (foldMetadata ⟨cols, rows⟩).rows.get? i = some r2 ∧
      r2.length = (foldMetadata ⟨cols, rows⟩).cols.length ∧
      ∀ c ∈ GENERIC_SCHEMA,
        (foldMetadata ⟨cols, rows⟩).getAt r2 c =
          if c = "metadata" then
            some (rowToJson ((metadataCols ⟨cols, rows⟩).map
              (fun k => (k, lookupZ (cols.zip r) k))))
          else lookupZ (cols.zip r) c := by
  have hrl : r.length = cols.length := hwf r (List.get?_mem hi)
  have hmF : (metadataCols ⟨cols, rows⟩).isEmpty = false := by
    cases hmm : metadataCols ⟨cols, rows⟩ with
    | nil => exact absurd hmm hm
    | cons a as => rfl
  have hdisj := metadataCols_not_schema cols rows
  have hmnot : "metadata" ∉ metadataCols ⟨cols, rows⟩ :=
    fun hx => hdisj "metadata" hx (by simp [GENERIC_SCHEMA])
  set mc := metadataCols ⟨cols, rows⟩ with hmc
  set ffun : List Cell → Cell := fun rr =>
    some (rowToJson (mc.map (fun k => (k, DataFrame.getAt ⟨cols, rows⟩ rr k)))) with hffun
  have hfold : foldMetadata ⟨cols, rows⟩ =
      dropCols (setCol ⟨cols, rows⟩ "metadata" (rows.map ffun)) mc := by
    simp only [foldMetadata, ← hmc, hmF, Bool.false_eq_true, if_false]
  have hfval : ffun r = some (rowToJson (mc.map (fun k => (k, lookupZ (cols.zip r) k)))) := by
    simp only [hffun]
    congr 2
    exact mapCongrAux _ _ _ (fun k _ => by
      rw [getAt_lookupZ ⟨cols, rows⟩ r hrl k])
  cases hcase : cols.findIdx? (fun x => decide (x = "metadata")) with
  | some j =>
    have hset : setCol ⟨cols, rows⟩ "metadata" (rows.map ffun) =
        ⟨cols, rows.map (fun rr => rr.set j (ffun rr))⟩ := by
      simp only [setCol, hcase]
      congr 1
      rw [zip_self_map, List.map_map]
      rfl
    rw [hset] at hfold
    refine ⟨((cols.zip (r.set j (ffun r))).filter
      (fun p => !(mc.contains p.1))).map Prod.snd, ?_, ?_, ?_⟩
    · rw [hfold]
      simp only [dropCols, List.get?_map, hi]
      rfl
    · rw [hfold]
      simp only [dropCols]
      rw [dropCols_cols_eq cols (r.set j (ffun r)) mc (by simp [hrl])]
      simp
    · intro c hcS
      have hcm : c ∉ mc := fun hx => hdisj c hx hcS
      rw [hfold]
      have hcols2 : (dropCols ⟨cols, rows.map (fun rr => rr.set j (ffun rr))⟩ mc).cols =
          ((cols.zip (r.set j (ffun r))).filter (fun p => !(mc.contains p.1))).map Prod.fst := by
        simp only [dropCols]
        exact dropCols_cols_eq cols (r.set j (ffun r)) mc (by simp [hrl])
      have hlen3 : (((cols.zip (r.set j (ffun r))).filter
          (fun p => !(mc.contains p.1))).map Prod.snd).length =
          (dropCols ⟨cols, rows.map (fun rr => rr.set j (ffun rr))⟩ mc).cols.length := by
        rw [hcols2]
        simp
      rw [getAt_lookupZ _ _ hlen3 c, hcols2, zip_fst_snd,
          lookupZ_filter_keep _ mc c hcm]
      by_cases hc : c = "metadata"
      · subst hc
        rw [if_pos rfl, lookupZ_set_found cols r (ffun r) "metadata" j hcase hrl, hfval]
      · rw [if_neg hc, lookupZ_set_other cols r (ffun r) "metadata" c j hcase hrl hc]
  | none =>
    have hset : setCol ⟨cols, rows⟩ "metadata" (rows.map ffun) =
        ⟨cols ++ ["metadata"], rows.map (fun rr => rr ++ [ffun rr])⟩ := by
      simp only [setCol, hcase]
      congr 1
      rw [zip_self_map, List.map_map]
      rfl
    rw [hset] at hfold
    have hallne : ∀ x ∈ cols, x ≠ "metadata" := by
      intro x hx
      have := List.findIdx?_eq_none_iff.mp hcase x hx
      simpa using this
    have hlen' : (r ++ [ffun r]).length = (cols ++ ["metadata"]).length := by
      simp [hrl]
    have hzap : (cols ++ ["metadata"]).zip (r ++ [ffun r]) =
        cols.zip r ++ [("metadata", ffun r)] := by
      rw [List.zip_append hrl.symm]
      rfl
    refine ⟨(((cols ++ ["metadata"]).zip (r ++ [ffun r])).filter
      (fun p => !(mc.contains p.1))).map Prod.snd, ?_, ?_, ?_⟩
    · rw [hfold]
      simp only [dropCols, List.get?_map, hi]
      rfl
    · rw [hfold]
      simp only [dropCols]
      rw [dropCols_cols_eq (cols ++ ["metadata"]) (r ++ [ffun r]) mc hlen']
      simp
    · intro c hcS
      have hcm : c ∉ mc := fun hx => hdisj c hx hcS
      rw [hfold]
      have hcols2 : (dropCols ⟨cols ++ ["metadata"],
            rows.map (fun rr => rr ++ [ffun rr])⟩ mc).cols =
          (((cols ++ ["metadata"]).zip (r ++ [ffun r])).filter
            (fun p => !(mc.contains p.1))).map Prod.fst := by
        simp only [dropCols]
        exact dropCols_cols_eq (cols ++ ["metadata"]) (r ++ [ffun r]) mc hlen'
      have hlen3 : ((((cols ++ ["metadata"]).zip (r ++ [ffun r])).filter
          (fun p => !(mc.contains p.1))).map Prod.snd).length =
          (dropCols ⟨cols ++ ["metadata"],
            rows.map (fun rr => rr ++ [ffun rr])⟩ mc).cols.length := by
        rw [hcols2]
        simp
      rw [getAt_lookupZ _ _ hlen3 c, hcols2, zip_fst_snd, hzap]
      have hmcontains : (mc.contains "metadata") = false := by
        simpa using hmnot
      rw [List.filter_append]
      rw [show List.filter (fun p => !(mc.contains p.1)) [("metadata", ffun r)] =
          [("metadata", ffun r)] from by simp [List.filter_cons, hmnot]]
      by_cases hc : c = "metadata"
      · subst hc
        rw [if_pos rfl]
        rw [lookupZ_append_last _ _ _ (fun p hp => by
          have hpmem := List.mem_filter.mp hp
          have hfst := (List.of_mem_zip hpmem.1).1
          exact hallne p.1 hfst)]
        exact hfval
      · rw [if_neg hc, lookupZ_append_other _ _ _ c hc,
            lookupZ_filter_keep _ mc c hcm]

/-- Master characterisation of the Schema Normalizer: the cell of the
normalised table at row `i` and canonical column `c` is the original label
lookup, except at `metadata` when unrecognized columns exist, where it is
the JSON fold of the row's unrecognized cells. -/
theorem normalize_getCell_eq (cols : List String) (rows : List (List Cell))
    (hwf : (DataFrame.mk cols rows).wf) (i : Nat) (r : List Cell)
    (hi : rows.get? i = some r) (c : String) (hc : c ∈ GENERIC_SCHEMA) :
    (DataFrame.mk cols rows).normalize.getCell i c =
      if c = "metadata" ∧ metadataCols ⟨cols, rows⟩ ≠ [] then
        some (rowToJson ((metadataCols ⟨cols, rows⟩).map
          (fun k => (k, lookupZ (cols.zip r) k))))
      else lookupZ (cols.zip r) c := by
  by_cases hm : metadataCols ⟨cols, rows⟩ = []
  · have hfold : foldMetadata ⟨cols, rows⟩ = ⟨cols, rows⟩ := by
      simp only [foldMetadata, hm]
      rfl
    simp only [DataFrame.normalize]
    rw [hfold, getCell_reindex ⟨cols, rows⟩ i r c hc hi,
        getAt_lookupZ ⟨cols, rows⟩ r (hwf r (List.get?_mem hi)) c,
        if_neg (by simp [hm])]
  · obtain ⟨r2, hr2, hlen2, hchar⟩ := foldMetadata_spec cols rows hwf i r hi hm
    simp only [DataFrame.normalize]
    rw [getCell_reindex _ i r2 c hc hr2, hchar c hc]
    by_cases hcmeta : c = "metadata"
    · rw [if_pos hcmeta, if_pos ⟨hcmeta, hm⟩]
    · rw [if_neg hcmeta, if_neg (by tauto)]

/-- C10: metadata folding operates on the table-wide set of unrecognized
columns: when any unrecognized column exists, every record's `metadata` cell
becomes a JSON object keyed by all unrecognized columns of the table (the
key list is exactly `metadataCols`), with null for columns the record lacks;
a record with no unrecognized values of its own still gets the all-null JSON
object, its original `metadata` value overwritten. -/
theorem C10_tablewide_fold (df : DataFrame) (hwf : df.wf)
    (hm : metadataCols df ≠ []) (i : Nat) (r : List Cell)
    (hi : df.rows.get? i = some r) :
    df.normalize.getCell i "metadata" =
      some (rowToJson ((metadataCols df).map (fun k => (k, lookupZ (df.cols.zip r) k)))) ∧
    ((metadataCols df).map (fun k => (k, lookupZ (df.cols.zip r) k))).map Prod.fst =
      metadataCols df ∧
    ((∀ k ∈ metadataCols df, lookupZ (df.cols.zip r) k = none) →
      df.normalize.getCell i "metadata" =
        some (rowToJson ((metadataCols df).map (fun k => (k, (none : Cell)))))) := by
  obtain ⟨cols, rows⟩ := df
  have hmain := normalize_getCell_eq cols rows hwf i r hi "metadata" (by simp [GENERIC_SCHEMA])
  rw [if_pos ⟨rfl, hm⟩] at hmain
  refine ⟨hmain, ?_, ?_⟩
  · rw [List.map_map]
    exact (mapCongrAux _ _ id (fun x _ => rfl)).trans (List.map_id _)
  intro hnone
  rw [hmain]
  congr 2
  exact mapCongrAux _ _ _ (fun k hk => by rw [hnone k hk])

/-- C10 witness: the second record has no unrecognized values of its own,
yet its metadata is the table-wide fold. -/
theorem C10_tablewide_fold_witness :
    (DataFrame.mk ["metadata", "a"] [[some "keep", some "1"], [some "x", none]]).normalize.getCell
        1 "metadata" =
      some (rowToJson ((metadataCols ⟨["metadata", "a"], [[some "keep", some "1"], [some "x", none]]⟩).map
        (fun k => (k, lookupZ ((["metadata", "a"]).zip [some "x", none]) k)))) ∧
    ((metadataCols ⟨["metadata", "a"], [[some "keep", some "1"], [some "x", none]]⟩).map
        (fun k => (k, lookupZ ((["metadata", "a"]).zip [some "x", none]) k))).map Prod.fst =
      metadataCols ⟨["metadata", "a"], [[some "keep", some "1"], [some "x", none]]⟩ ∧
    ((∀ k ∈ metadataCols ⟨["metadata", "a"], [[some "keep", some "1"], [some "x", none]]⟩,
        lookupZ ((["metadata", "a"]).zip [some "x", none]) k = none) →
      (DataFrame.mk ["metadata", "a"] [[some "keep", some "1"], [some "x", none]]).normalize.getCell
          1 "metadata" =
        some (rowToJson ((metadataCols ⟨["metadata", "a"], [[some "keep", some "1"], [some "x", none]]⟩).map
          (fun k => (k, (none : Cell)))))) :=
  C10_tablewide_fold ⟨["metadata", "a"], [[some "keep", some "1"], [some "x", none]]⟩
    (by unfold DataFrame.wf; decide) (by decide) 1 [some "x", none] (by decide)

/-- C3 counterexample: for the record with a source field literally named
`metadata` (value "keep") and one unrecognized field `a`, the output
`metadata` cell is the JSON of `a` alone; the source `metadata` value is
discarded, not folded together with the unrecognized fields as the claim
states. -/
theorem C3_counterexample_metadata_not_folded :
    (DataFrame.normalize ⟨["metadata", "a"], [[some "keep", some "1"]]⟩).getCell 0 "metadata" =
      some "\x7b\"a\":\"1\"\x7d" ∧
    (some "\x7b\"a\":\"1\"\x7d" : Cell) ≠
      some (rowToJson [("metadata", some "keep"), ("a", some "1")]) := by
  constructor
  · decide
  · decide

/-- C3 amended: a source column literally named `metadata` is canonical
(never part of the unrecognized fold); whenever unrecognized columns exist
anywhere in the table, every record's `metadata` output is the JSON of that
record's unrecognized-column cells only, discarding any pre-existing
`metadata` value; a pre-existing `metadata` value is kept exactly when the
table has no unrecognized columns. -/
theorem C3_metadata_canonical_never_folded (df : DataFrame) (hwf : df.wf) (i : Nat)
    (r : List Cell) (hi : df.rows.get? i = some r) :
    "metadata" ∉ metadataCols df ∧
    (metadataCols df ≠ [] →
      df.normalize.getCell i "metadata" =
        some (rowToJson ((metadataCols df).map (fun k => (k, lookupZ (df.cols.zip r) k))))) ∧
    (metadataCols df = [] →
      df.normalize.getCell i "metadata" = lookupZ (df.cols.zip r) "metadata") := by
  obtain ⟨cols, rows⟩ := df
  have hmem : "metadata" ∈ GENERIC_SCHEMA := by simp [GENERIC_SCHEMA]
  have hmain := normalize_getCell_eq cols rows hwf i r hi "metadata" hmem
  refine ⟨fun hx => metadataCols_not_schema cols rows "metadata" hx hmem, ?_, ?_⟩
  · intro hm
    rwa [if_pos ⟨rfl, hm⟩] at hmain
  · intro hm
    rwa [if_neg (by simp [hm])] at hmain

/-- C3 amended witness at the counterexample table. -/
theorem C3_metadata_canonical_never_folded_witness :
    "metadata" ∉ metadataCols ⟨["metadata", "a"], [[some "keep", some "1"]]⟩ ∧
    (metadataCols ⟨["metadata", "a"], [[some "keep", some "1"]]⟩ ≠ [] →
      (DataFrame.mk ["metadata", "a"] [[some "keep", some "1"]]).normalize.getCell 0 "metadata" =
        some (rowToJson ((metadataCols ⟨["metadata", "a"], [[some "keep", some "1"]]⟩).map
          (fun k => (k, lookupZ ((["metadata", "a"]).zip [some "keep", some "1"]) k))))) ∧
    (metadataCols ⟨["metadata", "a"], [[some "keep", some "1"]]⟩ = [] →
      (DataFrame.mk ["metadata", "a"] [[some "keep", some "1"]]).normalize.getCell 0 "metadata" =
        lookupZ ((["metadata", "a"]).zip [some "keep", some "1"]) "metadata") :=
  C3_metadata_canonical_never_folded ⟨["metadata", "a"], [[some "keep", some "1"]]⟩
    (by unfold DataFrame.wf; decide) 0 [some "keep", some "1"] (by decide)

/-- Flattening a list of copies of the singleton key list. -/
theorem flatten_const_singleton (lines : List String) :
    ((lines.map (fun _ => (["message"] : List String)))).flatten =
      lines.map (fun _ => "message") := by
  induction lines with
  | nil => rfl
  | cons l ls ih => simp [ih]

/-- Deduplication of an all-equal key list against a seen set already
holding the key. -/
theorem dedup_const (lines : List String) (seen : List String)
    (h : "message" ∈ seen) :
    dedupAux (lines.map (fun _ => "message")) seen = [] := by
  induction lines with
  | nil => rfl
  | cons l ls ih =>
    simp only [List.map_cons, dedupAux]
    rw [if_pos (by simpa using h)]
    exact ih

/-- Deduplication of a non-empty all-equal key list. -/
theorem dedup_head (lines : List String) (hne : lines ≠ []) :
    dedupAux (lines.map (fun _ => "message")) [] = ["message"] := by
  cases lines with
  | nil => exact absurd rfl hne
  | cons l ls =>
    simp only [List.map_cons, dedupAux, List.contains_nil, Bool.false_eq_true, if_false]
    rw [dedup_const ls ["message"] (by simp)]

/-- The DataFrame built from the raw-line fallback records (app.py line
175) has the single column `message`. -/
theorem fromRecords_fallback (lines : List String) (hne : lines ≠ []) :
    fromRecords (lines.map (fun line => [("message", some line)])) =
      ⟨["message"], lines.map (fun l => [some l])⟩ := by
  simp only [fromRecords, List.map_map]
  have hkeys : (List.map ((fun r => List.map Prod.fst r) ∘ fun line =>
      [(("message" : String), (some line : Cell))]) lines).flatten =
      lines.map (fun _ => "message") := by
    rw [show ((fun r => List.map Prod.fst r) ∘ fun line =>
        [(("message" : String), (some line : Cell))]) =
        (fun _ => (["message"] : List String)) from rfl]
    exact flatten_const_singleton lines
  rw [hkeys, dedup_head lines hne]
  congr 1

/-- Normalising the raw-line fallback table: `message` is canonical, so
nothing folds, and reindexing yields one canonical row per line with only
`message` populated. -/
theorem normalize_fallback (lines : List String) :
    (DataFrame.mk ["message"] (lines.map (fun l => [some l]))).normalize =
      ⟨GENERIC_SCHEMA,
       lines.map (fun l => [none, none, some l, none, none, none, none, none])⟩ := by
  simp only [DataFrame.normalize]
  have hfold : foldMetadata ⟨["message"], lines.map (fun l => [some l])⟩ =
      ⟨["message"], lines.map (fun l => [some l])⟩ := by
    simp only [foldMetadata]
    have hm : metadataCols ⟨["message"], lines.map (fun l => [some l])⟩ = [] := rfl
    simp [hm]
  rw [hfold]
  simp only [reindex, DataFrame.mk.injEq, true_and]
  rw [List.map_map]
  rfl

/-- C2 amended: when the inference call returns a non-empty pattern that
matches zero lines of a non-empty txt/log upload, the pipeline does not
fail: it falls back to a non-empty table with one record per original line
(blank lines included), the full line text in `message` and every other
canonical field empty, with the fallback warning flashed.  (When the call
raises, or returns an empty/missing pattern, the pipeline instead fails
with an error message: see the counterexample.) -/
theorem C2_fallback_on_zero_matches (filename content : String) (p : String)
    (matchFn : String → Option RawRec)
    (xmlParse : String → Except String (List RawRec))
    (hallow : allowed_file filename = true)
    (hext : lowerPy (pyRsplitDot (secureFilename filename)).2 = "log" ∨
            lowerPy (pyRsplitDot (secureFilename filename)).2 = "txt")
    (hsample : logSample content ≠ "")
    (hp : p ≠ "")
    (hnomatch : ∀ line ∈ splitlinesPy content, matchFn (pyStrip line) = none) :
    processUpload filename content (.returned (some p)) matchFn xmlParse =
      .ok ⟨GENERIC_SCHEMA, (splitlinesPy content).map
          (fun l => [none, none, some l, none, none, none, none, none])⟩
        ((pyRsplitDot (secureFilename filename)).1 ++ "_processed.csv") true ∧
    (splitlinesPy content).map
        (fun l => [none, none, some l, none, none, none, none, none]) ≠ [] := by
  have hlines : splitlinesPy content ≠ [] := by
    intro h
    exact hsample (by simp only [logSample, h, List.take_nil]; rfl)
  have hcon : content ≠ "" := by
    intro h
    exact hsample (by rw [h]; rfl)
  have hfne : ¬(filename = "") := by
    intro h
    rw [h] at hallow
    exact absurd hallow (by decide)
  have htxt : processTxt content (.returned (some p)) matchFn =
      .ok (fromRecords ((splitlinesPy content).map (fun line => [("message", some line)])),
        true) := by
    simp only [processTxt, if_neg hsample]
    rw [if_neg (show ¬((some p).getD "" = "") from hp)]
    rw [show (splitlinesPy content).filterMap (fun line => matchFn (pyStrip line)) = []
        from List.filterMap_eq_nil.mpr hnomatch]
    rfl
  have hextb : (decide (lowerPy (pyRsplitDot (secureFilename filename)).2 = "log") ||
      decide (lowerPy (pyRsplitDot (secureFilename filename)).2 = "txt")) = true := by
    rcases hext with h | h <;> simp [h]
  constructor
  · simp only [processUpload, if_neg hfne, if_pos hallow, if_neg hcon, if_pos hextb]
    rw [htxt]
    simp only [Except.map]
    rw [fromRecords_fallback _ hlines]
    have hempty : ((splitlinesPy content).map (fun l => [(some l : Cell)])).isEmpty = false := by
      cases hl : splitlinesPy content with
      | nil => exact absurd hl hlines
      | cons a as => rfl
    simp only [hempty, Bool.false_eq_true, if_false]
    rw [normalize_fallback _]
  · intro h
    exact hlines (by simpa using h)

/-- C2 witness: a concrete two-line log whose pattern matches nothing. -/
theorem C2_fallback_witness :
    processUpload "data.log" "hello\nworld" (.returned (some "^x$")) (fun _ => none)
        (fun _ => .error "unused") =
      .ok ⟨GENERIC_SCHEMA, (splitlinesPy "hello\nworld").map
          (fun l => [none, none, some l, none, none, none, none, none])⟩
        ((pyRsplitDot (secureFilename "data.log")).1 ++ "_processed.csv") true ∧
    (splitlinesPy "hello\nworld").map
        (fun l => [none, none, some l, none, none, none, none, none]) ≠ [] :=
  C2_fallback_on_zero_matches "data.log" "hello\nworld" "^x$" (fun _ => none)
    (fun _ => .error "unused") (by decide) (Or.inl (by decide)) (by decide) (by decide)
    (fun line _ => rfl)

/-- C2 counterexample: when the Pattern Inference Client raises (retries
exhausted or fatal status), the upload fails with an error message; no
fallback table is produced, contradicting the claim that inference failure
is non-fatal. -/
theorem C2_counterexample_inference_raise :
    processUpload "data.log" "hello\nworld" (.raised "connection error") (fun _ => none)
      (fun _ => .error "unused") = .err "An error occurred: connection error" ∧
    (Outcome.err "An error occurred: connection error" ≠
      Outcome.ok ⟨GENERIC_SCHEMA,
        [[none, none, some "hello", none, none, none, none, none],
         [none, none, some "world", none, none, none, none, none]]⟩
        "data_processed.csv" true) := by
  constructor
  · decide
  · decide

/-- C5 counterexample: for the spec's concrete JSON input, the pipeline
applies no ts/lvl/msg/host field-name mapping: all four source fields are
unrecognized and fold into `metadata`; the actual single output record
differs from the record the claim predicts. -/
theorem C5_counterexample_no_field_mapping :
    processUpload "data.json"
        "[\x7b\"ts\":\"2024-01-01T00:00:00Z\",\"lvl\":\"ERROR\",\"msg\":\"disk full\",\"host\":\"h1\"\x7d]"
        (.returned none) (fun _ => none) (fun _ => .error "unused") =
      .ok ⟨GENERIC_SCHEMA,
        [[none, none, none, none, none, none, none,
          some "\x7b\"ts\":\"2024-01-01T00:00:00Z\",\"lvl\":\"ERROR\",\"msg\":\"disk full\",\"host\":\"h1\"\x7d"]]⟩
        "data_processed.csv" false ∧
    ([[(none : Cell), none, none, none, none, none, none,
       some "\x7b\"ts\":\"2024-01-01T00:00:00Z\",\"lvl\":\"ERROR\",\"msg\":\"disk full\",\"host\":\"h1\"\x7d"]] ≠
     [[some "2024-01-01T00:00:00Z", some "ERROR", some "disk full", none, some "h1",
       none, none, none]]) := by
  constructor
  · decide
  · decide

/-- C5 amended: the concrete JSON input yields exactly one output record
whose canonical fields are all empty except `metadata`, which holds the
JSON object of the four source fields verbatim (no field-name mapping). -/
theorem C5_actual_output :
    processUpload "data.json"
        "[\x7b\"ts\":\"2024-01-01T00:00:00Z\",\"lvl\":\"ERROR\",\"msg\":\"disk full\",\"host\":\"h1\"\x7d]"
        (.returned none) (fun _ => none) (fun _ => .error "unused") =
      .ok ⟨GENERIC_SCHEMA,
        [[none, none, none, none, none, none, none,
          some "\x7b\"ts\":\"2024-01-01T00:00:00Z\",\"lvl\":\"ERROR\",\"msg\":\"disk full\",\"host\":\"h1\"\x7d"]]⟩
        "data_processed.csv" false := by
  decide

/-- C4 counterexample: a newline-delimited JSON upload parses fine in the
NDJSON form the spec describes (witnessed through the spec-modelled
`specNdjsonParse`), yet the pipeline fails with a trailing-data error:
`pandas.read_json` is called once and there is no NDJSON retry. -/
theorem C4_counterexample_ndjson_not_retried :
    specNdjsonParse "\x7b\"a\":\"x\"\x7d\n\x7b\"a\":\"y\"\x7d" =
      .ok [[("a", some "x")], [("a", some "y")]] ∧
    processUpload "data.json" "\x7b\"a\":\"x\"\x7d\n\x7b\"a\":\"y\"\x7d" (.returned none)
      (fun _ => none) (fun _ => .error "unused") =
      .err "An error occurred: Trailing data" := by
  constructor
  · decide
  · decide

/-- C4 amended: the JSON parser makes a single parse attempt of the whole
content as one JSON document: a JSON array of objects yields one record per
object (non-numeric-looking string values kept verbatim, missing keys
becoming null); newline-delimited JSON is not retried and fails with a
trailing-data error; malformed content fails with a parse error. -/
theorem C4_json_single_parse :
    readJson "[\x7b\"a\":\"foo\"\x7d,\x7b\"b\":\"bar\"\x7d]" =
      .ok ⟨["a", "b"], [[some "foo", none], [none, some "bar"]]⟩ ∧
    readJson "\x7b\"a\":\"x\"\x7d\n\x7b\"a\":\"y\"\x7d" = .error "Trailing data" ∧
    readJson "not json at all" = .error "Expected a JSON value" ∧
    processUpload "data.json" "[\x7b\"a\":\"foo\"\x7d,\x7b\"b\":\"bar\"\x7d]" (.returned none)
      (fun _ => none) (fun _ => .error "unused") =
      .ok ⟨GENERIC_SCHEMA,
        [[none, none, none, none, none, none, none, some "\x7b\"a\":\"foo\",\"b\":null\x7d"],
         [none, none, none, none, none, none, none, some "\x7b\"a\":null,\"b\":\"bar\"\x7d"]]⟩
        "data_processed.csv" false := by
  refine ⟨by decide, by decide, by decide, by decide⟩

/-- The retry loop makes at most `i plus fuel` attempts in total. -/
theorem geminiLoop_attempts (oracle : Nat → AttemptResult) :
    ∀ (fuel i backoff : Nat) (sleeps : List Nat),
      (geminiLoop oracle fuel i backoff sleeps).attempts ≤ i + fuel := by
  intro fuel
  induction fuel with
  | zero => intro i b s; simp [geminiLoop]
  | succ f ih =>
    intro i b s
    simp only [geminiLoop]
    split
    · show i + 1 ≤ i + (f + 1)
      omega
    · split
      · exact le_trans (ih (i + 1) _ _) (by omega)
      · show i + 1 ≤ i + (f + 1)
        omega
    · show i + 1 ≤ i + (f + 1)
      omega

/-- C6 amended: the retry policy of `get_regex_from_gemini`: a network
failure carrying no response raises immediately after one attempt (no
retry); an error status other than 503/429 raises immediately; a 503 or 429
response is retried with exponential backoff (2s, then 4s) for at most 3
attempts, after which it raises.  Attempts are always bounded by 3. -/
theorem C6_retry_policy (oracle : Nat → AttemptResult) :
    (∀ m, oracle 0 = .netErr m → geminiCall oracle = ⟨.error m, [], 1⟩) ∧
    (∀ s, oracle 0 = .httpErr s → s ≠ 503 → s ≠ 429 →
      geminiCall oracle = ⟨.error ("HTTP error " ++ toString s), [], 1⟩) ∧
    (∀ s t, (s = 503 ∨ s = 429) → oracle 0 = .httpErr s → oracle 1 = .ok t →
      geminiCall oracle = ⟨.ok t, [2], 2⟩) ∧
    (∀ s, (s = 503 ∨ s = 429) → oracle 0 = .httpErr s → oracle 1 = .httpErr s →
      oracle 2 = .httpErr s →
      geminiCall oracle = ⟨.error ("HTTP error " ++ toString s), [2, 4], 3⟩) ∧
    (geminiCall oracle).attempts ≤ 3 := by
  refine ⟨?_, ?_, ?_, ?_, ?_⟩
  · intro m h0
    simp [geminiCall, geminiLoop, h0]
  · intro s h0 h503 h429
    simp only [geminiCall, geminiLoop, h0]
    rw [if_neg (by simp [h503, h429])]
    rfl
  · intro s t hs h0 h1
    rcases hs with rfl | rfl <;>
      simp [geminiCall, geminiLoop, h0, h1]
  · intro s hs h0 h1 h2
    rcases hs with rfl | rfl <;>
      simp [geminiCall, geminiLoop, h0, h1, h2]
  · exact geminiLoop_attempts oracle 3 0 2 []

/-- C6 witness: persistent 503 exhausts the 3 attempts with backoff 2s,
4s. -/
theorem C6_retry_policy_witness :
    geminiCall (fun _ => .httpErr 503) = ⟨.error ("HTTP error " ++ toString 503), [2, 4], 3⟩ :=
  (C6_retry_policy (fun _ => .httpErr 503)).2.2.2.1 503 (Or.inl rfl) rfl rfl rfl

/-- C6 counterexample: a network failure with no HTTP response on the
first attempt raises immediately (one attempt, no sleeps), although a
retry would have succeeded; the claim that any network or service failure
is retried is false. -/
theorem C6_counterexample_network_error_not_retried :
    geminiCall (fun n => if n = 0 then .netErr "connection timeout" else .ok (some "^p$")) =
      ⟨.error "connection timeout", [], 1⟩ ∧
    (CallTrace.mk (.error "connection timeout") [] 1 ≠
      CallTrace.mk (.ok (some "^p$")) [2] 2) := by
  constructor
  · decide
  · decide

/-- C9: a `.exe` upload is rejected with the file-type flash for every
content (no content is read or parsed); the check is case-insensitive and
`data.CSV` is processed identically to `data.csv`. -/
theorem C9_extension_gating :
    allowed_file "data.exe" = false ∧
    (∀ (content : String) (infer : InferResult) (matchFn : String → Option RawRec)
      (xmlParse : String → Except String (List RawRec)),
      processUpload "data.exe" content infer matchFn xmlParse = .err "File type not allowed.") ∧
    allowed_file "data.CSV" = true ∧
    (∀ (content : String) (infer : InferResult) (matchFn : String → Option RawRec)
      (xmlParse : String → Except String (List RawRec)),
      processUpload "data.CSV" content infer matchFn xmlParse =
        processUpload "data.csv" content infer matchFn xmlParse) := by
  refine ⟨by decide, ?_, by decide, ?_⟩
  · intro content infer matchFn xmlParse
    simp only [processUpload]
    rw [if_neg (by decide), if_neg (by decide)]
  · intro content infer matchFn xmlParse
    rfl

/-- A position where a field may legally end: end of input, a delimiter or
a line terminator. -/
def stopOk (rest : List Char) : Prop :=
  rest = [] ∨ ∃ c rest', rest = c :: rest' ∧ (c = ',' ∨ c = '\n' ∨ c = '\r')

/-- Parsing a quote-escaped body followed by the closing quote returns the
original characters, provided the text after the closing quote does not
begin with another quote (writer output continues with a delimiter or line
terminator). -/
theorem parseQuoted_esc (cs : List Char) :
    ∀ (acc rest : List Char),
      (∀ c' rest', rest = c' :: rest' → c' ≠ '"') →
      parseQuoted (escQuotes cs ++ '"' :: rest) acc =
        (String.mk (acc.reverse ++ cs), rest) := by
  induction cs with
  | nil =>
    intro acc rest hrest
    cases rest with
    | nil => simp [escQuotes, parseQuoted]
    | cons c' rest' => simp [escQuotes, parseQuoted, hrest c' rest' rfl]
  | cons c cs' ih =>
    intro acc rest hrest
    by_cases hq : c = '"'
    · subst hq
      rw [show escQuotes ('"' :: cs') ++ '"' :: rest =
          '"' :: '"' :: (escQuotes cs' ++ '"' :: rest) from rfl]
      rw [show parseQuoted ('"' :: '"' :: (escQuotes cs' ++ '"' :: rest)) acc =
          parseQuoted (escQuotes cs' ++ '"' :: rest) ('"' :: acc) from rfl]
      rw [ih ('"' :: acc) rest hrest]
      simp
    · cases htail : escQuotes cs' ++ '"' :: rest with
      | nil => simp at htail
      | cons t ts =>
        rw [show escQuotes (c :: cs') ++ '"' :: rest = c :: t :: ts from by
          simp only [escQuotes]
          rw [if_neg hq]
          simpa using htail]
        rw [show parseQuoted (c :: t :: ts) acc = parseQuoted (t :: ts) (c :: acc) from by
          simp only [parseQuoted]
          rw [if_neg hq]]
        rw [← htail, ih (c :: acc) rest hrest]
        simp

/-- Parsing an unquoted run containing no delimiter or terminator stops
exactly at the following stop character. -/
theorem parseUnquoted_run (cs : List Char) :
    ∀ (acc rest : List Char),
      (∀ c ∈ cs, ¬(c = ',' ∨ c = '\n' ∨ c = '\r')) →
      stopOk rest →
      parseUnquoted (cs ++ rest) acc = (String.mk (acc.reverse ++ cs), rest) := by
  induction cs with
  | nil =>
    intro acc rest hcs hrest
    rcases hrest with rfl | ⟨c, rest', rfl, hc⟩
    · simp [parseUnquoted]
    · simp only [List.nil_append, parseUnquoted]
      rw [if_pos (by rcases hc with rfl | rfl | rfl <;> simp)]
      simp
  | cons c cs' ih =>
    intro acc rest hcs hrest
    have hstop : ¬(c = ',' || c = '\n' || c = '\r') = true := by
      have := hcs c (by simp)
      simp only [Bool.or_eq_true, decide_eq_true_eq]
      intro hx
      rcases hx with hx | hx
      · rcases hx with hx | hx
        · exact this (Or.inl hx)
        · exact this (Or.inr (Or.inl hx))
      · exact this (Or.inr (Or.inr hx))
    rw [show parseUnquoted ((c :: cs') ++ rest) acc =
        parseUnquoted (cs' ++ rest) (c :: acc) from by
      simp only [List.cons_append, parseUnquoted]
      rw [if_neg (by simpa using hstop)]
      rfl]
    rw [ih (c :: acc) rest (fun x hx => hcs x (by simp [hx])) hrest]
    simp

/-- Rebuilding a string from its character list is the identity. -/
theorem mkToList (s : String) : String.mk s.toList = s := rfl

/-- Round trip of a single encoded CSV field. -/
theorem parseField_enc (s : String) (rest : List Char) (hrest : stopOk rest) :
    parseField (fieldChars s ++ rest) = (s, rest) := by
  by_cases hq : needsQuote s
  · have hrestq : ∀ c' rest', rest = c' :: rest' → c' ≠ '"' := by
      intro c' rest' hr
      rcases hrest with rfl | ⟨c, r', heq, hc⟩
      · exact absurd hr (by simp)
      · rw [hr] at heq
        injection heq with h1 h2
        subst h1
        rcases hc with rfl | rfl | rfl <;> decide
    simp only [fieldChars]
    rw [if_pos hq]
    rw [show ('"' :: (escQuotes s.toList ++ ['"'])) ++ rest =
        '"' :: (escQuotes s.toList ++ '"' :: rest) from by simp]
    rw [show parseField ('"' :: (escQuotes s.toList ++ '"' :: rest)) =
        parseQuoted (escQuotes s.toList ++ '"' :: rest) [] from rfl]
    rw [parseQuoted_esc s.toList [] rest hrestq]
    simp [mkToList]
  · have hq' := hq
    simp only [needsQuote, List.any_eq_true, Bool.or_eq_true, decide_eq_true_eq,
      not_exists, not_and, not_or] at hq'
    have hnostop : ∀ c ∈ s.toList, ¬(c = ',' ∨ c = '\n' ∨ c = '\r') := by
      intro c hcmem hor
      obtain ⟨⟨⟨h1, h2⟩, h3⟩, h4⟩ := hq' c hcmem
      rcases hor with h | h | h
      · exact h1 h
      · exact h3 h
      · exact h4 h
    have hnoquote : ∀ c ∈ s.toList, c ≠ '"' := by
      intro c hcmem
      exact (hq' c hcmem).1.1.2
    simp only [fieldChars]
    rw [if_neg hq]
    cases hsl : s.toList with
    | nil =>
      have hs : s = "" := by
        cases s with
        | mk data =>
          simp only [String.toList] at hsl
          rw [show data = ([] : List Char) from hsl]
      rcases hrest with rfl | ⟨c, rest', rfl, hc⟩
      · rw [hs]
        rfl
      · have hcq : c ≠ '"' := by rcases hc with rfl | rfl | rfl <;> decide
        rw [show parseField (([] : List Char) ++ c :: rest') =
            parseUnquoted (c :: rest') [] from by
          simp only [List.nil_append, parseField]
          rw [if_neg hcq]]
        rw [show ((c :: rest') : List Char) = [] ++ (c :: rest') from rfl,
            parseUnquoted_run [] [] (c :: rest') (by simp)
              (Or.inr ⟨c, rest', rfl, hc⟩)]
        rw [hs]
        rfl
    | cons c cs =>
      have hcq : c ≠ '"' := hnoquote c (by rw [hsl]; simp)
      rw [show parseField ((c :: cs) ++ rest) =
          parseUnquoted ((c :: cs) ++ rest) [] from by
        simp only [List.cons_append, parseField]
        rw [if_neg hcq]]
      rw [← hsl, parseUnquoted_run s.toList [] rest hnostop hrest]
      simp [mkToList]

/-- Round trip of an encoded CSV record up to its line terminator. -/
theorem parseRowF_enc (fields : List String) :
    ∀ (fuel : Nat) (rest : List Char), fields ≠ [] → fields.length ≤ fuel →
      parseRowF fuel (rowChars (fields.map fieldChars) ++ '\n' :: rest) = (fields, rest) := by
  induction fields with
  | nil => intro fuel rest h _; exact absurd rfl h
  | cons f fs ih =>
    intro fuel rest _ hlen
    cases fuel with
    | zero => simp at hlen
    | succ fuel' =>
      cases fs with
      | nil =>
        simp only [List.map_cons, List.map_nil, rowChars]
        simp only [parseRowF]
        rw [parseField_enc f ('\n' :: rest) (Or.inr ⟨'\n', rest, rfl, Or.inr (Or.inl rfl)⟩)]
        rfl
      | cons f' fs' =>
        rw [show rowChars ((f :: f' :: fs').map fieldChars) ++ '\n' :: rest =
            fieldChars f ++ (',' :: (rowChars ((f' :: fs').map fieldChars) ++ '\n' :: rest))
            from by simp [rowChars, List.append_assoc]]
        simp only [parseRowF]
        rw [parseField_enc f (',' :: (rowChars ((f' :: fs').map fieldChars) ++ '\n' :: rest))
          (Or.inr ⟨',', _, rfl, Or.inl rfl⟩)]
        show ((f :: (parseRowF fuel' (rowChars ((f' :: fs').map fieldChars) ++ '\n' :: rest)).1,
            (parseRowF fuel' (rowChars ((f' :: fs').map fieldChars) ++ '\n' :: rest)).2) :
            List String × List Char) = (f :: f' :: fs', rest)
        rw [ih fuel' rest (by simp) (by simpa using hlen)]

/-- An encoded record is at least one character shorter than its field
count would require minus one (one delimiter between fields). -/
theorem rowChars_length (fields : List String) :
    fields.length ≤ (rowChars (fields.map fieldChars)).length + 1 := by
  induction fields with
  | nil => simp
  | cons f fs ih =>
    cases fs with
    | nil => simp [rowChars]
    | cons f' fs' =>
      rw [show rowChars ((f :: f' :: fs').map fieldChars) =
          fieldChars f ++ ',' :: rowChars ((f' :: fs').map fieldChars) from by
        simp [rowChars]]
      have ih2 := ih
      simp only [List.length_cons, List.length_append] at ih2 ⊢
      omega

/-- Each encoded record contributes at least its terminator. -/
theorem encRows_length (rs : List (List String)) :
    rs.length ≤ (encRows (rs.map (List.map fieldChars))).length := by
  induction rs with
  | nil => simp [encRows]
  | cons row rest ih =>
    simp only [List.map_cons, encRows, List.flatten_cons, List.length_append,
      List.length_cons]
    simp only [encRows] at ih
    omega

/-- Round trip of the full encoded record list (rows of at least two
fields are never mistaken for blank lines). -/
theorem parseRowsF_enc (rows : List (List String)) :
    ∀ fuel, (∀ row ∈ rows, 2 ≤ row.length) → rows.length < fuel →
      parseRowsF fuel (encRows (rows.map (List.map fieldChars))) = rows := by
  induction rows with
  | nil =>
    intro fuel _ hfuel
    cases fuel with
    | zero => omega
    | succ f => rfl
  | cons row rest ih =>
    intro fuel hlen2 hfuel
    cases fuel with
    | zero => omega
    | succ f =>
      have hrow2 : 2 ≤ row.length := hlen2 row (by simp)
      have henc : encRows ((row :: rest).map (List.map fieldChars)) =
          rowChars (row.map fieldChars) ++ '\n' :: encRows (rest.map (List.map fieldChars)) := by
        simp [encRows]
      rw [henc]
      cases hcs : rowChars (row.map fieldChars) ++ '\n' :: encRows (rest.map (List.map fieldChars)) with
      | nil => simp at hcs
      | cons c cs' =>
        simp only [parseRowsF]
        rw [← hcs]
        have hbound : row.length ≤
            (rowChars (row.map fieldChars) ++ '\n' :: encRows (rest.map (List.map fieldChars))).length + 1 := by
          have := rowChars_length row
          simp only [List.length_append, List.length_cons]
          omega
        rw [parseRowF_enc row _ _ (by intro h; rw [h] at hrow2; simp at hrow2) hbound]
        rw [if_neg (by
          intro h
          have h' : row = [""] := h
          rw [h'] at hrow2
          simp at hrow2)]
        show row :: parseRowsF f (encRows (rest.map (List.map fieldChars))) = row :: rest
        rw [ih f (fun r hr => hlen2 r (by simp [hr])) (by simpa using hfuel)]

/-- Tokenising the encoder's output recovers the header and the cell
display strings of every row. -/
theorem parseCsv_toCsv (df : DataFrame) (hwf : df.wf) (hc : df.cols = GENERIC_SCHEMA) :
    parseCsvRows (toCsv df) = df.cols :: df.rows.map (fun r => r.map cellStr) := by
  have henc : toCsv df = String.mk (encRows
      ((df.cols :: df.rows.map (fun r => r.map cellStr)).map (List.map fieldChars))) := by
    simp only [toCsv, List.map_cons, List.map_map]
    rw [mapCongrAux df.rows (fun r => List.map (fun cell => fieldChars (cellStr cell)) r)
      (List.map fieldChars ∘ fun r => List.map cellStr r) (fun r _ => by simp [List.map_map])]
  rw [henc]
  show parseRowsF ((String.mk _).length + 1) (String.mk _).toList = _
  rw [show ∀ l : List Char, (String.mk l).toList = l from fun _ => rfl,
      show ∀ l : List Char, (String.mk l).length = l.length from fun _ => rfl]
  apply parseRowsF_enc
  · intro row hrow
    rcases List.mem_cons.mp hrow with rfl | hmem
    · rw [hc]
      simp [GENERIC_SCHEMA]
    · obtain ⟨r, hr, rfl⟩ := List.mem_map.mp hmem
      have := hwf r hr
      rw [hc] at this
      simp [this, GENERIC_SCHEMA]
  · have hlb := encRows_length (df.cols :: df.rows.map (fun r => r.map cellStr))
    simp only [List.length_cons] at hlb ⊢
    omega

/-- Mapping a default-valued index over the length range recovers a map
over the list. -/
theorem range_map_getD {α β : Type} (l : List α) (g : α → β) (d : α) :
    (List.range l.length).map (fun j => g (l.getD j d)) = l.map g := by
  induction l with
  | nil => rfl
  | cons a t ih =>
    rw [List.length_cons, List.range_succ_eq_map, List.map_cons, List.map_map]
    show g a :: (List.range t.length).map ((fun j => g ((a :: t).getD j d)) ∘ (· + 1)) = _
    rw [show ((fun j => g ((a :: t).getD j d)) ∘ (· + 1)) = (fun j => g (t.getD j d)) from rfl]
    rw [ih]
    rfl

/-- Indexing a constant list with its constant as default is that constant
at every index. -/
theorem getD_const {α : Type} (l : List α) (a : α) (h : ∀ x ∈ l, x = a) (j : Nat) :
    l.getD j a = a := by
  induction l generalizing j with
  | nil => simp
  | cons x t ih =>
    cases j with
    | zero => simpa using h x (by simp)
    | succ j2 => simpa using ih (fun y hy => h y (by simp [hy])) j2

/-- A column whose every field is an NA sentinel or a non-coercible string
stays an object column of strings under dtype inference. -/
theorem colKind_str (fields : List String)
    (h : ∀ f ∈ fields, NA_VALUES.contains f = true ∨ coercibleTok f = false) :
    colKind fields = .strCol := by
  simp only [colKind]
  cases htoks : fields.filter (fun f => !(NA_VALUES.contains f)) with
  | nil => simp
  | cons t ts =>
    have htmem : t ∈ fields.filter (fun f => !(NA_VALUES.contains f)) := by
      rw [htoks]
      simp
    have hprop := List.mem_filter.mp htmem
    have hnotNA : NA_VALUES.contains t = false := by simpa using hprop.2
    have hnc : coercibleTok t = false := by
      rcases h t hprop.1 with hna | hx
      · rw [hna] at hnotNA
        exact absurd hnotNA (by simp)
      · exact hx
    have hall : (t :: ts).all coercibleTok = false := by simp [List.all_cons, hnc]
    simp [hall]

/-- The expected typed re-parse of a string cell: empty and missing are
identified as NA, other values stay strings. -/
def toPdStr : Cell → PdCell
  | none => .na
  | some s => if s = "" then .na else .str s

/-- C8 amended: for every well-formed NormalizedTable none of whose string
values is a pandas NA sentinel or a numeric/boolean-looking token (the
values pandas' dtype inference may coerce), encoding with `to_csv` and
re-parsing with `read_csv` reproduces the header and every canonical field
value, with empty string and missing value identified. -/
theorem C8_roundtrip (df : DataFrame) (hwf : df.wf) (hc : df.cols = GENERIC_SCHEMA)
    (hval : ∀ r ∈ df.rows, ∀ cell ∈ r, ∀ s, cell = some s →
      s = "" ∨ (s ∉ NA_VALUES ∧ coercibleTok s = false)) :
    read_csv_typed (toCsv df) =
      .ok (df.cols, df.rows.map (fun r => r.map toPdStr)) := by
  have hparse := parseCsv_toCsv df hwf hc
  simp only [read_csv_typed, hparse]
  have hfieldprop : ∀ j, ∀ f ∈ columnFields (df.rows.map (fun r => r.map cellStr)) j,
      NA_VALUES.contains f = true ∨ coercibleTok f = false := by
    intro j f hf
    simp only [columnFields, List.mem_map] at hf
    obtain ⟨r2, hr2, rfl⟩ := hf
    obtain ⟨r, hr, rfl⟩ := hr2
    rw [show (r.map cellStr).getD j "" = ((r.map cellStr).get? j).getD "" from rfl]
    rw [List.get?_map]
    cases hget : r.get? j with
    | none => left; decide
    | some cell =>
      simp only [Option.map, Option.getD]
      cases cell with
      | none => left; decide
      | some s =>
        rcases hval r hr (some s) (List.get?_mem hget) s rfl with rfl | ⟨hna, hcoer⟩
        · left; decide
        · right; exact hcoer
  have hkinds : ∀ j, colKind (columnFields (df.rows.map (fun r => r.map cellStr)) j) =
      .strCol := fun j => colKind_str _ (hfieldprop j)
  have hkindsmap : (List.range df.cols.length).map
      (fun j => colKind (columnFields (df.rows.map (fun r => r.map cellStr)) j)) =
      (List.range df.cols.length).map (fun _ => ColKind.strCol) :=
    mapCongrAux _ _ _ (fun j _ => hkinds j)
  rw [hkindsmap]
  have hconst : ∀ x ∈ (List.range df.cols.length).map (fun _ => ColKind.strCol),
      x = ColKind.strCol := by
    intro x hx
    simp only [List.mem_map] at hx
    obtain ⟨_, _, rfl⟩ := hx
    rfl
  rw [if_neg (by
    intro hcontains
    simp at hcontains)]
  congr 2
  have hinner : ∀ r2 : List String,
      (List.range df.cols.length).map (fun j =>
        mkPdCell (((List.range df.cols.length).map
          (fun _ => ColKind.strCol)).getD j .strCol) (r2.getD j "")) =
      (List.range df.cols.length).map (fun j => mkPdCell .strCol (r2.getD j "")) :=
    fun r2 => mapCongrAux _ _ _ (fun j _ => by rw [getD_const _ _ hconst j])
  rw [List.map_map]
  apply mapCongrAux
  intro r hr
  rw [show ((fun r2 => (List.range df.cols.length).map (fun j =>
      mkPdCell (((List.range df.cols.length).map
        (fun _ => ColKind.strCol)).getD j ColKind.strCol) (r2.getD j ""))) ∘
      (fun r => r.map cellStr)) r =
      (List.range df.cols.length).map (fun j =>
        mkPdCell (((List.range df.cols.length).map
          (fun _ => ColKind.strCol)).getD j ColKind.strCol)
          ((r.map cellStr).getD j "")) from rfl]
  rw [hinner (r.map cellStr)]
  have hlenr : (r.map cellStr).length = df.cols.length := by
    rw [List.length_map]
    exact hwf r hr
  rw [← hlenr, range_map_getD (r.map cellStr) (mkPdCell .strCol) "", List.map_map]
  apply mapCongrAux
  intro cell hcell
  cases cell with
  | none => decide
  | some s =>
    rcases hval r hr (some s) hcell s rfl with rfl | ⟨hna, hcoer⟩
    · decide
    · have hne : s ≠ "" := fun h => hna (by rw [h]; decide)
      show mkPdCell .strCol (cellStr (some s)) = toPdStr (some s)
      simp only [cellStr, mkPdCell, toPdStr]
      rw [if_neg (by simpa using hna), if_neg hne]

/-- C8 counterexample: one row holding the NA sentinel string "NaN" and the
numeric string "1": the re-parse turns the first into a missing value and
the second into the integer 1 (its column is a clean int64 column), so
neither value is reproduced as a string, and neither loss is the allowed
empty-string/null identification. -/
theorem C8_counterexample_dtype_and_na :
    read_csv_typed (toCsv ⟨GENERIC_SCHEMA,
      [[some "NaN", some "1", none, none, none, none, none, none]]⟩) =
      .ok (GENERIC_SCHEMA,
        [[.na, .int 1, .na, .na, .na, .na, .na, .na]]) ∧
    (PdCell.na ≠ PdCell.str "NaN") ∧ (PdCell.int 1 ≠ PdCell.str "1") ∧
    ("NaN" ≠ "") ∧ ("1" ≠ "") := by
  refine ⟨by decide, by decide, by decide, by decide, by decide⟩

/-- C8 witness: a row exercising quoting (comma, quote, newline), empty
string and missing values, with no NA-sentinel or coercible value,
round-trips to its typed form. -/
theorem C8_roundtrip_witness :
    read_csv_typed (toCsv ⟨GENERIC_SCHEMA,
      [[some "a,b", some "q\"x", none, some "", some "line1\nline2", none, none, some "x"]]⟩) =
      .ok (GENERIC_SCHEMA,
        [[.str "a,b", .str "q\"x", .na, .na, .str "line1\nline2", .na, .na, .str "x"]]) := by
  have h := C8_roundtrip ⟨GENERIC_SCHEMA,
      [[some "a,b", some "q\"x", none, some "", some "line1\nline2", none, none, some "x"]]⟩
    (by unfold DataFrame.wf; decide) rfl
    (by
      intro r hr cell hcell s hs
      subst hs
      simp only [List.mem_singleton] at hr
      subst hr
      simp only [List.mem_cons, List.not_mem_nil, or_false] at hcell
      rcases hcell with h | h | h | h | h | h | h | h <;>
        first
          | exact Option.noConfusion h
          | (injection h with h2; subst h2; decide))
  exact h.trans (by decide)
